import Mathlib

/-!
Verification of the Radial Warp Engine of `gravilens-warp.py` (the
`gravilens_warp` function, lines 46-91 of the source).

Embedding conventions:

* Python floats are modelled as exact real numbers (`ℝ`); `math.hypot`
  and `math.sqrt` become `Real.sqrt`.
* Python 2 `round` rounds half away from zero; `int()` of its result is
  `pyRound` below.
* Python float `%` with a positive right operand is `fmod` below
  (`a - m * ⌊a / m⌋`).
* The pixel buffer `array("B", ...)` is a `List ℕ` of bytes; Python
  indexing (which supports negative indices and raises `IndexError` out
  of range) is `pyGet` / `pySet`, returning `Option`; an uncaught
  `IndexError` aborts the transform, so the whole warp returns
  `Option (List ℕ)` with `none` for a crash.
* `for i in range(n)` with a fallible body is `iterUp`, which runs the
  body at `0, 1, ..., n-1` in order and propagates failure.
-/

/-- Python 2 `int(round v)`: round half away from zero. -/
noncomputable def pyRound (v : ℝ) : ℤ :=
  if 0 ≤ v then ⌊v + 1/2⌋ else -⌊-v + 1/2⌋

/-- Python float modulo `a % m` for `0 < m` (exact-real model). -/
noncomputable def fmod (a m : ℝ) : ℝ := a - m * ⌊a / m⌋

/-- Python list read `l[k]`: negative indices count from the end,
out-of-range raises `IndexError` (modelled as `none`). -/
def pyGet (l : List ℕ) (k : ℤ) : Option ℕ :=
  if 0 ≤ k then l[k.toNat]?
  else if 0 ≤ k + l.length then l[(k + l.length).toNat]?
  else none

/-- Python list write `l[k] = v`: negative indices count from the end,
out-of-range raises `IndexError` (modelled as `none`). -/
def pySet (l : List ℕ) (k : ℤ) (v : ℕ) : Option (List ℕ) :=
  if 0 ≤ k ∧ k < l.length then some (l.set k.toNat v)
  else if 0 ≤ k + l.length ∧ k < 0 then some (l.set (k + l.length).toNat v)
  else none

/-- Run a fallible loop body at indices `0, 1, ..., n-1` in order,
propagating failure (Python `for i in range(n)` whose body may raise). -/
def iterUp (f : List ℕ → ℕ → Option (List ℕ)) : ℕ → List ℕ → Option (List ℕ)
  | 0, d => some d
  | n + 1, d => (iterUp f n d).bind fun d2 => f d2 n

/-- Inputs of the warp: the layer dimensions and pixel size, the
selection bounds `x1, y1, x2, y2`, the two radius percentages, the
`inside` flag, and the flat source byte buffer (`src_array`). -/
structure WarpInput where
  width : ℕ
  height : ℕ
  psize : ℕ
  x1 : ℤ
  y1 : ℤ
  x2 : ℤ
  y2 : ℤ
  innerP : ℝ
  outerP : ℝ
  inside : Bool
  src : List ℕ

/-- `max_radius = min(x2 - x1, y2 - y1) / 2.` (line 46). -/
noncomputable def maxRadius (p : WarpInput) : ℝ :=
  ((min (p.x2 - p.x1) (p.y2 - p.y1) : ℤ) : ℝ) / 2

/-- `inner_radius = max_radius * inner_radius_percent / 100.` (line 47). -/
noncomputable def innerRadius (p : WarpInput) : ℝ :=
  maxRadius p * p.innerP / 100

/-- `outer_radius = max_radius * outer_radius_percent / 100.` (line 48). -/
noncomputable def outerRadius (p : WarpInput) : ℝ :=
  maxRadius p * p.outerP / 100

/-- `x_center = (x2 + x1) / 2.` (line 49). -/
noncomputable def xCenter (p : WarpInput) : ℝ := ((p.x2 : ℝ) + (p.x1 : ℝ)) / 2

/-- `y_center = (y2 + y1) / 2.` (line 50). -/
noncomputable def yCenter (p : WarpInput) : ℝ := ((p.y2 : ℝ) + (p.y1 : ℝ)) / 2

/-- `dx = x - x_center` (line 70). -/
noncomputable def dxOf (p : WarpInput) (x : ℕ) : ℝ := (x : ℝ) - xCenter p

/-- `dy = y - y_center` (line 70). -/
noncomputable def dyOf (p : WarpInput) (y : ℕ) : ℝ := (y : ℝ) - yCenter p

/-- `r = math.hypot(dx, dy)` (line 71). -/
noncomputable def rOf (p : WarpInput) (x y : ℕ) : ℝ :=
  Real.sqrt (dxOf p x ^ 2 + dyOf p y ^ 2)

/-- `denom = (outer_radius - inner_radius) or 1` (line 72): a Python
`or` yields the right operand exactly when the left one is `0.0`. -/
noncomputable def denomEff (p : WarpInput) : ℝ :=
  if outerRadius p - innerRadius p = 0 then 1
  else outerRadius p - innerRadius p

/-- `ratio = min(1, (r - inner_radius) / denom)` (line 73). -/
noncomputable def rawRatio (p : WarpInput) (x y : ℕ) : ℝ :=
  min 1 ((rOf p x y - innerRadius p) / denomEff p)

/-- The shaping transform (lines 75-80): for a positive raw ratio,
`ratio = 1 - (1 - ratio) ** 2` followed by the signed square root;
a non-positive raw ratio is left unchanged. -/
noncomputable def ratioOf (p : WarpInput) (x y : ℕ) : ℝ :=
  if 0 < rawRatio p x y then
    if 0 < 1 - (1 - rawRatio p x y) ^ 2 then
      Real.sqrt (1 - (1 - rawRatio p x y) ^ 2)
    else -Real.sqrt |1 - (1 - rawRatio p x y) ^ 2|
  else rawRatio p x y

/-- `x_warp = int(round(((dx * ratio + x_center) % layer.width)))` (line 81). -/
noncomputable def xWarp (p : WarpInput) (x y : ℕ) : ℤ :=
  pyRound (fmod (dxOf p x * ratioOf p x y + xCenter p) p.width)

/-- `y_warp = int(round(((dy * ratio + y_center) % layer.height)))` (line 82). -/
noncomputable def yWarp (p : WarpInput) (x y : ℕ) : ℤ :=
  pyRound (fmod (dyOf p y * ratioOf p x y + yCenter p) p.height)

/-- `pos_orig = (y * layer.width + x) * pixel_size` (line 84). -/
def posOrig (p : WarpInput) (x y : ℕ) : ℕ := (y * p.width + x) * p.psize

/-- `pos_warp = (y_warp * layer.width + x_warp) * pixel_size` (line 85). -/
noncomputable def posWarp (p : WarpInput) (x y : ℕ) : ℤ :=
  (yWarp p x y * (p.width : ℤ) + xWarp p x y) * (p.psize : ℤ)

/-- `val = src_array[pos_warp + i] if ratio >= 0 or inside else 0`
(line 87); the read happens only when the condition holds. -/
noncomputable def destByte (p : WarpInput) (x y i : ℕ) : Option ℕ :=
  if 0 ≤ ratioOf p x y ∨ p.inside = true then
    pyGet p.src (posWarp p x y + (i : ℤ))
  else some 0

/-- The inner `for i in range(pixel_size)` loop (lines 86-88) writing
one destination pixel. -/
noncomputable def writePixel (p : WarpInput) (x y : ℕ) (d : List ℕ) :
    Option (List ℕ) :=
  iterUp (fun d2 i => (destByte p x y i).bind fun v =>
    pySet d2 ((posOrig p x y : ℤ) + (i : ℤ)) v) p.psize d

/-- One iteration of the outer `for x in range(layer.width)` loop
(lines 62-88): the column is skipped when `x` is outside the selection,
otherwise every row inside the selection gets its pixel written. -/
noncomputable def colStep (p : WarpInput) (x : ℕ) (d : List ℕ) :
    Option (List ℕ) :=
  if (x : ℤ) < p.x1 ∨ p.x2 ≤ (x : ℤ) then some d
  else
    iterUp (fun d2 y =>
      if (y : ℤ) < p.y1 ∨ p.y2 ≤ (y : ℤ) then some d2
      else writePixel p x y d2) p.height d

/-- The whole transform (lines 58-91): the destination array starts as
a copy of the source bytes and the double loop rewrites the pixels
inside the selection; `none` models an uncaught `IndexError`. -/
noncomputable def warp (p : WarpInput) : Option (List ℕ) :=
  iterUp (fun d x => colStep p x d) p.width p.src

/-- Membership of a pixel in the selection rectangle: the tests on
lines 64 and 67 fail. -/
def inROI (p : WarpInput) (x y : ℕ) : Prop :=
  p.x1 ≤ (x : ℤ) ∧ (x : ℤ) < p.x2 ∧ p.y1 ≤ (y : ℤ) ∧ (y : ℤ) < p.y2

instance (p : WarpInput) (x y : ℕ) : Decidable (inROI p x y) := by
  unfold inROI; infer_instance

/-! ### Generic lemmas about the loop model -/

theorem iterUp_zero (f : List ℕ → ℕ → Option (List ℕ)) (d : List ℕ) :
    iterUp f 0 d = some d := rfl

theorem iterUp_succ (f : List ℕ → ℕ → Option (List ℕ)) (n : ℕ) (d : List ℕ) :
    iterUp f (n + 1) d = (iterUp f n d).bind fun d2 => f d2 n := rfl

theorem iterUp_congr {f g : List ℕ → ℕ → Option (List ℕ)}
    (h : ∀ d i, f d i = g d i) (n : ℕ) (d : List ℕ) :
    iterUp f n d = iterUp g n d := by
  induction n with
  | zero => rfl
  | succ n ih =>
    rw [iterUp_succ, iterUp_succ, ih]
    exact congrArg _ (funext fun d2 => h d2 n)

theorem pyGet_of_nonneg (l : List ℕ) {k : ℤ} (hk : 0 ≤ k) :
    pyGet l k = l[k.toNat]? := if_pos hk

theorem pySet_eq_some_of_nonneg {l : List ℕ} {k : ℤ} {v : ℕ} {l2 : List ℕ}
    (hk : 0 ≤ k) (h : pySet l k v = some l2) :
    k < l.length ∧ l2 = l.set k.toNat v := by
  unfold pySet at h
  by_cases hlt : 0 ≤ k ∧ k < l.length
  · rw [if_pos hlt] at h
    exact ⟨hlt.2, (Option.some_inj.mp h).symm⟩
  · rw [if_neg hlt] at h
    by_cases h2 : 0 ≤ k + l.length ∧ k < 0
    · exact absurd h2.2 (not_lt.mpr hk)
    · rw [if_neg h2] at h; cases h

/-! ### Pointwise characterization of a successful warp -/

theorem iterUp_write_some (p : WarpInput) (x y : ℕ) :
    ∀ (n : ℕ) (d d2 : List ℕ),
    iterUp (fun e i => (destByte p x y i).bind fun v =>
      pySet e ((posOrig p x y : ℤ) + (i : ℤ)) v) n d = some d2 →
    d2.length = d.length ∧
      ∀ q : ℕ, d2[q]? =
        if posOrig p x y ≤ q ∧ q < posOrig p x y + n
        then destByte p x y (q - posOrig p x y) else d[q]? := by
  intro n
  induction n with
  | zero =>
    intro d d2 h
    rw [iterUp_zero, Option.some_inj] at h
    subst h
    exact ⟨rfl, fun q => by rw [if_neg (by omega)]⟩
  | succ n ih =>
    intro d d2 h
    rw [iterUp_succ, Option.bind_eq_some] at h
    obtain ⟨e, he, hf⟩ := h
    obtain ⟨hlen, hpt⟩ := ih d e he
    rw [Option.bind_eq_some] at hf
    obtain ⟨v, hv, hset⟩ := hf
    have hk : (0:ℤ) ≤ (posOrig p x y : ℤ) + (n : ℤ) := by positivity
    obtain ⟨hklt, hd2⟩ := pySet_eq_some_of_nonneg hk hset
    have htn : ((posOrig p x y : ℤ) + (n : ℤ)).toNat = posOrig p x y + n := by
      omega
    have hlt : posOrig p x y + n < e.length := by
      omega
    subst hd2
    rw [htn]
    refine ⟨by rw [List.length_set, hlen], fun q => ?_⟩
    by_cases hq : posOrig p x y + n = q
    · subst hq
      rw [List.getElem?_set_self hlt, if_pos (by omega)]
      have : posOrig p x y + n - posOrig p x y = n := by omega
      rw [this, hv]
    · rw [List.getElem?_set_ne hq, hpt q]
      by_cases hq2 : posOrig p x y ≤ q ∧ q < posOrig p x y + n
      · rw [if_pos hq2, if_pos (by omega)]
      · rw [if_neg hq2, if_neg (by omega)]

theorem writePixel_some {p : WarpInput} {x y : ℕ} {d d2 : List ℕ}
    (h : writePixel p x y d = some d2) :
    d2.length = d.length ∧
      ∀ q : ℕ, d2[q]? =
        if posOrig p x y ≤ q ∧ q < posOrig p x y + p.psize
        then destByte p x y (q - posOrig p x y) else d[q]? :=
  iterUp_write_some p x y p.psize d d2 h

theorem pixel_index_eq {W : ℕ} {x x2 y y2 : ℕ} (hx : x < W) (hx2 : x2 < W)
    (h : y * W + x = y2 * W + x2) : x = x2 ∧ y = y2 := by
  have hW : 0 < W := by omega
  constructor
  · have h1 : (y * W + x) % W = x := by
      rw [Nat.add_comm, Nat.add_mul_mod_self_right, Nat.mod_eq_of_lt hx]
    have h2 : (y2 * W + x2) % W = x2 := by
      rw [Nat.add_comm, Nat.add_mul_mod_self_right, Nat.mod_eq_of_lt hx2]
    rw [← h1, ← h2, h]
  · have h1 : (y * W + x) / W = y := by
      rw [Nat.add_comm, Nat.add_mul_div_right _ _ hW, Nat.div_eq_of_lt hx]
      omega
    have h2 : (y2 * W + x2) / W = y2 := by
      rw [Nat.add_comm, Nat.add_mul_div_right _ _ hW, Nat.div_eq_of_lt hx2]
      omega
    rw [← h1, ← h2, h]

theorem pixel_ranges_disjoint {W C : ℕ} {x x2 y y2 i : ℕ}
    (hx : x < W) (hx2 : x2 < W) (hi : i < C)
    (hne : ¬(x = x2 ∧ y = y2)) :
    ¬((y2 * W + x2) * C ≤ (y * W + x) * C + i ∧
      (y * W + x) * C + i < (y2 * W + x2) * C + C) := by
  rintro ⟨h1, h2⟩
  have hab : y * W + x ≠ y2 * W + x2 := fun h => hne (pixel_index_eq hx hx2 h)
  rcases Nat.lt_or_ge (y * W + x) (y2 * W + x2) with hlt | hge
  · have : (y * W + x) * C + i < (y2 * W + x2) * C := by
      calc (y * W + x) * C + i < (y * W + x) * C + C := by omega
        _ = (y * W + x + 1) * C := by ring
        _ ≤ (y2 * W + x2) * C := Nat.mul_le_mul_right C hlt
    omega
  · have hlt2 : y2 * W + x2 < y * W + x := by omega
    have : (y2 * W + x2) * C + C ≤ (y * W + x) * C := by
      calc (y2 * W + x2) * C + C = (y2 * W + x2 + 1) * C := by ring
        _ ≤ (y * W + x) * C := Nat.mul_le_mul_right C hlt2
    omega

theorem posOrig_ranges_disjoint {p : WarpInput} {x x2 y y2 i : ℕ}
    (hx : x < p.width) (hx2 : x2 < p.width) (hi : i < p.psize)
    (hne : ¬(x = x2 ∧ y = y2)) :
    ¬(posOrig p x2 y2 ≤ posOrig p x y + i ∧
      posOrig p x y + i < posOrig p x2 y2 + p.psize) :=
  pixel_ranges_disjoint hx hx2 hi hne

theorem iterUp_rows_some (p : WarpInput) (x : ℕ) (hx : x < p.width) :
    ∀ (m : ℕ) (d d2 : List ℕ),
    iterUp (fun d2 y =>
      if (y : ℤ) < p.y1 ∨ p.y2 ≤ (y : ℤ) then some d2
      else writePixel p x y d2) m d = some d2 →
    d2.length = d.length ∧
      (∀ y, y < m → ¬((y : ℤ) < p.y1 ∨ p.y2 ≤ (y : ℤ)) →
        ∀ i, i < p.psize → d2[posOrig p x y + i]? = destByte p x y i) ∧
      (∀ q : ℕ,
        (∀ y, y < m → ¬((y : ℤ) < p.y1 ∨ p.y2 ≤ (y : ℤ)) →
          ¬(posOrig p x y ≤ q ∧ q < posOrig p x y + p.psize)) →
        d2[q]? = d[q]?) := by
  intro m
  induction m with
  | zero =>
    intro d d2 h
    rw [iterUp_zero, Option.some_inj] at h
    subst h
    exact ⟨rfl, fun y hy => by omega, fun q _ => rfl⟩
  | succ m ih =>
    intro d d2 h
    rw [iterUp_succ, Option.bind_eq_some] at h
    obtain ⟨e, he, hf⟩ := h
    obtain ⟨hlen, hwr, hpres⟩ := ih d e he
    by_cases hout : (m : ℤ) < p.y1 ∨ p.y2 ≤ (m : ℤ)
    · rw [if_pos hout, Option.some_inj] at hf
      subst hf
      refine ⟨hlen, fun y hy hin i hi => ?_, fun q hq => ?_⟩
      · rcases Nat.lt_or_ge y m with h1 | h1
        · exact hwr y h1 hin i hi
        · have : y = m := by omega
          subst this
          exact absurd hout (by simpa using hin)
      · exact hpres q (fun y hy hin => hq y (by omega) hin)
    · rw [if_neg hout] at hf
      obtain ⟨hlen2, hpt⟩ := writePixel_some hf
      refine ⟨hlen2.trans hlen, fun y hy hin i hi => ?_, fun q hq => ?_⟩
      · rcases Nat.lt_or_ge y m with h1 | h1
        · have hdisj := @posOrig_ranges_disjoint p x x y m i hx hx
            hi (by simp; omega)
          rw [hpt (posOrig p x y + i), if_neg hdisj]
          exact hwr y h1 hin i hi
        · have : y = m := by omega
          subst this
          rw [hpt (posOrig p x y + i), if_pos (by omega)]
          congr 1
          omega
      · have hqm := hq m (by omega) (by simpa using hout)
        rw [hpt q, if_neg (by omega)]
        exact hpres q (fun y hy hin => hq y (by omega) hin)

theorem iterUp_cols_some (p : WarpInput) :
    ∀ (n : ℕ), n ≤ p.width → ∀ (d d2 : List ℕ),
    iterUp (fun d x => colStep p x d) n d = some d2 →
    d2.length = d.length ∧
      (∀ x, x < n → ¬((x : ℤ) < p.x1 ∨ p.x2 ≤ (x : ℤ)) →
        ∀ y, y < p.height → ¬((y : ℤ) < p.y1 ∨ p.y2 ≤ (y : ℤ)) →
        ∀ i, i < p.psize → d2[posOrig p x y + i]? = destByte p x y i) ∧
      (∀ q : ℕ,
        (∀ x, x < n → ¬((x : ℤ) < p.x1 ∨ p.x2 ≤ (x : ℤ)) →
          ∀ y, y < p.height → ¬((y : ℤ) < p.y1 ∨ p.y2 ≤ (y : ℤ)) →
          ¬(posOrig p x y ≤ q ∧ q < posOrig p x y + p.psize)) →
        d2[q]? = d[q]?) := by
  intro n
  induction n with
  | zero =>
    intro _ d d2 h
    rw [iterUp_zero, Option.some_inj] at h
    subst h
    exact ⟨rfl, fun x hx => by omega, fun q _ => rfl⟩
  | succ n ih =>
    intro hn d d2 h
    rw [iterUp_succ, Option.bind_eq_some] at h
    obtain ⟨e, he, hf⟩ := h
    obtain ⟨hlen, hwr, hpres⟩ := ih (by omega) d e he
    unfold colStep at hf
    by_cases hout : (n : ℤ) < p.x1 ∨ p.x2 ≤ (n : ℤ)
    · rw [if_pos hout, Option.some_inj] at hf
      subst hf
      refine ⟨hlen, fun x hx hinx y hy hiny i hi => ?_, fun q hq => ?_⟩
      · rcases Nat.lt_or_ge x n with h1 | h1
        · exact hwr x h1 hinx y hy hiny i hi
        · have : x = n := by omega
          subst this
          exact absurd hout (by simpa using hinx)
      · exact hpres q (fun x hx hinx => hq x (by omega) hinx)
    · rw [if_neg hout] at hf
      obtain ⟨hlen2, hwr2, hpres2⟩ := iterUp_rows_some p n (by omega) p.height e d2 hf
      refine ⟨hlen2.trans hlen, fun x hx hinx y hy hiny i hi => ?_, fun q hq => ?_⟩
      · rcases Nat.lt_or_ge x n with h1 | h1
        · have hq2 : ∀ y2, y2 < p.height → ¬((y2 : ℤ) < p.y1 ∨ p.y2 ≤ (y2 : ℤ)) →
              ¬(posOrig p n y2 ≤ posOrig p x y + i ∧
                posOrig p x y + i < posOrig p n y2 + p.psize) := by
            intro y2 hy2 hiny2
            exact posOrig_ranges_disjoint (by omega) (by omega) hi (by omega)
          rw [hpres2 (posOrig p x y + i) hq2]
          exact hwr x h1 hinx y hy hiny i hi
        · have : x = n := by omega
          subst this
          exact hwr2 y hy hiny i hi
      · have hq2 : ∀ y2, y2 < p.height → ¬((y2 : ℤ) < p.y1 ∨ p.y2 ≤ (y2 : ℤ)) →
            ¬(posOrig p n y2 ≤ q ∧ q < posOrig p n y2 + p.psize) := by
          intro y2 hy2 hiny2
          exact hq n (by omega) (by simpa using hout) y2 hy2 hiny2
        rw [hpres2 q hq2]
        exact hpres q (fun x hx hinx => hq x (by omega) hinx)

/-- Pointwise characterization of a successful warp: the output has the
length of the source copy it started from, pixels inside the selection
hold the per-pixel destination bytes, every other position is untouched. -/
theorem warp_some_pointwise {p : WarpInput} {out : List ℕ}
    (h : warp p = some out) :
    out.length = p.src.length ∧
      ∀ x, x < p.width → ∀ y, y < p.height → ∀ i, i < p.psize →
        out[posOrig p x y + i]? =
          if inROI p x y then destByte p x y i
          else p.src[posOrig p x y + i]? := by
  obtain ⟨hlen, hwr, hpres⟩ :=
    iterUp_cols_some p p.width (le_refl _) p.src out h
  refine ⟨hlen, fun x hx y hy i hi => ?_⟩
  by_cases hroi : inROI p x y
  · rw [if_pos hroi]
    obtain ⟨h1, h2, h3, h4⟩ := hroi
    exact hwr x hx (by omega) y hy (by omega) i hi
  · rw [if_neg hroi]
    refine hpres (posOrig p x y + i) (fun x2 hx2 hinx2 y2 hy2 hiny2 => ?_)
    refine posOrig_ranges_disjoint hx hx2 hi (fun hEq => ?_)
    obtain ⟨hex, hey⟩ := hEq
    subst hex; subst hey
    exact hroi ⟨by omega, by omega, by omega, by omega⟩

/-! ### Arithmetic lemmas about the modelled float operations -/

theorem fmod_eq_self {a m : ℝ} (h0 : 0 ≤ a) (h1 : a < m) : fmod a m = a := by
  have hm : 0 < m := lt_of_le_of_lt h0 h1
  have hfl : ⌊a / m⌋ = 0 := by
    rw [Int.floor_eq_zero_iff]
    exact ⟨div_nonneg h0 hm.le, by rwa [div_lt_one hm]⟩
  rw [fmod, hfl]
  push_cast
  ring

theorem fmod_nonneg_lt {a m : ℝ} (hm : 0 < m) :
    0 ≤ fmod a m ∧ fmod a m < m := by
  have h1 : fmod a m = m * Int.fract (a / m) := by
    rw [fmod, Int.fract]
    field_simp
  rw [h1]
  constructor
  · exact mul_nonneg hm.le (Int.fract_nonneg _)
  · calc m * Int.fract (a / m) < m * 1 :=
        (mul_lt_mul_left hm).mpr (Int.fract_lt_one _)
      _ = m := mul_one m

theorem pyRound_eq_of {v : ℝ} {k : ℤ} (h0 : 0 ≤ v)
    (h1 : (k : ℝ) ≤ v + 1/2) (h2 : v + 1/2 < (k : ℝ) + 1) : pyRound v = k := by
  rw [pyRound, if_pos h0]
  exact Int.floor_eq_iff.mpr ⟨h1, by linarith⟩

theorem pyRound_nonneg {v : ℝ} (h0 : 0 ≤ v) : 0 ≤ pyRound v := by
  rw [pyRound, if_pos h0]
  rw [Int.le_floor]
  push_cast
  linarith

/-! ### Lemmas about the ratio computation -/

theorem rawRatio_le_one (p : WarpInput) (x y : ℕ) : rawRatio p x y ≤ 1 :=
  min_le_left _ _

theorem ratioOf_eq_raw {p : WarpInput} {x y : ℕ}
    (h : ¬ 0 < rawRatio p x y) : ratioOf p x y = rawRatio p x y := if_neg h

theorem shaping_bounds {t : ℝ} (h0 : 0 < t) (h1 : t ≤ 1) :
    0 < 1 - (1 - t) ^ 2 ∧ 1 - (1 - t) ^ 2 ≤ 1 := by
  constructor <;> nlinarith

theorem ratioOf_of_pos {p : WarpInput} {x y : ℕ} (h : 0 < rawRatio p x y) :
    ratioOf p x y = Real.sqrt (1 - (1 - rawRatio p x y) ^ 2) ∧
      0 < ratioOf p x y ∧ ratioOf p x y ≤ 1 := by
  obtain ⟨ht, ht1⟩ := shaping_bounds h (rawRatio_le_one p x y)
  have heq : ratioOf p x y = Real.sqrt (1 - (1 - rawRatio p x y) ^ 2) := by
    rw [ratioOf, if_pos h, if_pos ht]
  refine ⟨heq, ?_, ?_⟩
  · rw [heq]
    exact Real.sqrt_pos.mpr ht
  · rw [heq]
    exact Real.sqrt_le_one.mpr ht1

theorem ratioOf_eq_one {p : WarpInput} {x y : ℕ} (h : rawRatio p x y = 1) :
    ratioOf p x y = 1 := by
  rw [ratioOf, h]
  norm_num

theorem rawRatio_eq_one {p : WarpInput} {x y : ℕ}
    (h : 1 ≤ (rOf p x y - innerRadius p) / denomEff p) :
    rawRatio p x y = 1 := min_eq_left h

theorem denomEff_pos {p : WarpInput}
    (hd : innerRadius p ≤ outerRadius p) : 0 < denomEff p := by
  rw [denomEff]
  by_cases h : outerRadius p - innerRadius p = 0
  · rw [if_pos h]
    norm_num
  · rw [if_neg h]
    exact lt_of_le_of_ne (sub_nonneg.mpr hd) (Ne.symm h)

theorem rawRatio_neg_of_inner {p : WarpInput} {x y : ℕ}
    (hd : innerRadius p ≤ outerRadius p)
    (hr : rOf p x y < innerRadius p) : rawRatio p x y < 0 :=
  lt_of_le_of_lt (min_le_right _ _)
    (div_neg_of_neg_of_pos (by linarith) (denomEff_pos hd))

theorem rawRatio_eq_one_of_outer {p : WarpInput} {x y : ℕ}
    (hlt : innerRadius p < outerRadius p)
    (hr : outerRadius p ≤ rOf p x y) : rawRatio p x y = 1 := by
  apply min_eq_left
  rw [denomEff, if_neg (sub_ne_zero.mpr (ne_of_gt hlt)),
    le_div_iff₀ (by linarith), one_mul]
  linarith

/-! ### Lemmas about the warped coordinates and destination bytes -/

theorem xWarp_id {p : WarpInput} {x y : ℕ} (h : ratioOf p x y = 1)
    (hx : x < p.width) : xWarp p x y = (x : ℤ) := by
  have harg : dxOf p x * ratioOf p x y + xCenter p = (x : ℝ) := by
    rw [h, dxOf]
    ring
  rw [xWarp, harg, fmod_eq_self (by positivity) (by exact_mod_cast hx)]
  exact pyRound_eq_of (by positivity) (by push_cast; linarith)
    (by push_cast; linarith)

theorem yWarp_id {p : WarpInput} {x y : ℕ} (h : ratioOf p x y = 1)
    (hy : y < p.height) : yWarp p x y = (y : ℤ) := by
  have harg : dyOf p y * ratioOf p x y + yCenter p = (y : ℝ) := by
    rw [h, dyOf]
    ring
  rw [yWarp, harg, fmod_eq_self (by positivity) (by exact_mod_cast hy)]
  exact pyRound_eq_of (by positivity) (by push_cast; linarith)
    (by push_cast; linarith)

theorem posWarp_id {p : WarpInput} {x y : ℕ} (h : ratioOf p x y = 1)
    (hx : x < p.width) (hy : y < p.height) :
    posWarp p x y = (posOrig p x y : ℤ) := by
  rw [posWarp, xWarp_id h hx, yWarp_id h hy, posOrig]
  push_cast
  ring

theorem destByte_sampled {p : WarpInput} {x y : ℕ} (h : 0 ≤ ratioOf p x y)
    (i : ℕ) : destByte p x y i = pyGet p.src (posWarp p x y + (i : ℤ)) :=
  if_pos (Or.inl h)

theorem destByte_black {p : WarpInput} {x y : ℕ} (h : ratioOf p x y < 0)
    (hin : p.inside = false) (i : ℕ) : destByte p x y i = some 0 := by
  rw [destByte, if_neg]
  push_neg
  exact ⟨h, by simp [hin]⟩

theorem destByte_id {p : WarpInput} {x y : ℕ} (h : ratioOf p x y = 1)
    (hx : x < p.width) (hy : y < p.height) (i : ℕ) :
    destByte p x y i = p.src[posOrig p x y + i]? := by
  rw [destByte_sampled (by rw [h]; norm_num) i, posWarp_id h hx hy,
    pyGet_of_nonneg _ (by positivity)]
  have ht : ((posOrig p x y : ℤ) + (i : ℤ)).toNat = posOrig p x y + i := by
    omega
  rw [ht]

theorem posOrig_add_lt {p : WarpInput} {x y i : ℕ}
    (hx : x < p.width) (hy : y < p.height) (hi : i < p.psize) :
    posOrig p x y + i < p.width * p.height * p.psize := by
  have h1 : y * p.width + x + 1 ≤ p.width * p.height := by
    calc y * p.width + x + 1 ≤ y * p.width + p.width := by omega
      _ = (y + 1) * p.width := by ring
      _ ≤ p.height * p.width := Nat.mul_le_mul_right _ (by omega)
      _ = p.width * p.height := Nat.mul_comm _ _
  calc posOrig p x y + i < (y * p.width + x) * p.psize + p.psize := by
        unfold posOrig; omega
    _ = (y * p.width + x + 1) * p.psize := by ring
    _ ≤ p.width * p.height * p.psize := Nat.mul_le_mul_right _ h1

theorem maxRadius_pos {p : WarpInput} (hx12 : p.x1 < p.x2)
    (hy12 : p.y1 < p.y2) : 0 < maxRadius p := by
  rw [maxRadius]
  have h1 : (1 : ℤ) ≤ min (p.x2 - p.x1) (p.y2 - p.y1) :=
    le_min (by omega) (by omega)
  have h2 : (1 : ℝ) ≤ ((min (p.x2 - p.x1) (p.y2 - p.y1) : ℤ) : ℝ) := by
    exact_mod_cast h1
  linarith

theorem xWarp_nonneg {p : WarpInput} {x y : ℕ} (hW : 0 < p.width) :
    0 ≤ xWarp p x y := by
  rw [xWarp]
  exact pyRound_nonneg (fmod_nonneg_lt (by exact_mod_cast hW)).1

theorem yWarp_nonneg {p : WarpInput} {x y : ℕ} (hH : 0 < p.height) :
    0 ≤ yWarp p x y := by
  rw [yWarp]
  exact pyRound_nonneg (fmod_nonneg_lt (by exact_mod_cast hH)).1

/-! ### Claim theorems -/

/-- C3: for every pixel `(x, y)` outside the selection rectangle, a
successful warp leaves every byte of that pixel exactly as in the
source buffer: only pixels inside the selection are ever replaced. -/
theorem C3_outside_roi_identity {p : WarpInput} {out : List ℕ} {x y i : ℕ}
    (h : warp p = some out) (hx : x < p.width) (hy : y < p.height)
    (hi : i < p.psize) (hout : ¬ inROI p x y) :
    out[posOrig p x y + i]? = p.src[posOrig p x y + i]? := by
  have h2 := (warp_some_pointwise h).2 x hx y hy i hi
  rwa [if_neg hout] at h2

/-- C8: the transform is deterministic — two invocations of the warp on
identical inputs produce identical (byte-for-byte) results; the model is
a pure function of its input. -/
theorem C8_warp_deterministic (p q : WarpInput) (h : p = q) :
    warp p = warp q := congrArg warp h

/-- C9: because the raw ratio is clamped above by `1`, whenever the
shaping transform runs (raw ratio positive) the intermediate value
`1 - (1 - ratio)^2` lies in `(0, 1]`, the negative-square-root branch is
unreachable (the ratio becomes `sqrt` of that intermediate value), and
the final scale lies in `(0, 1]`. -/
theorem C9_shaping_sqrt_branch (p : WarpInput) (x y : ℕ)
    (h : 0 < rawRatio p x y) :
    rawRatio p x y ≤ 1 ∧
      0 < 1 - (1 - rawRatio p x y) ^ 2 ∧
      1 - (1 - rawRatio p x y) ^ 2 ≤ 1 ∧
      ratioOf p x y = Real.sqrt (1 - (1 - rawRatio p x y) ^ 2) ∧
      0 < ratioOf p x y ∧ ratioOf p x y ≤ 1 := by
  obtain ⟨ht, ht1⟩ := shaping_bounds h (rawRatio_le_one p x y)
  obtain ⟨heq, hpos, hle⟩ := ratioOf_of_pos h
  exact ⟨rawRatio_le_one p x y, ht, ht1, heq, hpos, hle⟩

/-- C5 (amended): provided `inner_radius < outer_radius`, every pixel of
the selection whose radial distance is at or beyond the outer radius has
clamped ratio exactly `1`, final scale `1`, and a successful warp leaves
it byte-for-byte identical to the source at the same position. -/
theorem C5_outer_radius_identity {p : WarpInput} {out : List ℕ} {x y i : ℕ}
    (h : warp p = some out) (hx : x < p.width) (hy : y < p.height)
    (hi : i < p.psize) (hroi : inROI p x y)
    (hio : innerRadius p < outerRadius p)
    (hr : outerRadius p ≤ rOf p x y) :
    rawRatio p x y = 1 ∧ ratioOf p x y = 1 ∧
      out[posOrig p x y + i]? = p.src[posOrig p x y + i]? := by
  have h0 := rawRatio_eq_one_of_outer hio hr
  have h1 := ratioOf_eq_one h0
  have h2 := (warp_some_pointwise h).2 x hx y hy i hi
  rw [if_pos hroi, destByte_id h1 hx hy] at h2
  exact ⟨h0, h1, h2⟩

/-- C2 (amended): provided `inner_radius ≤ outer_radius`, every selection
pixel strictly inside the inner radius has a negative final ratio; on a
successful warp, with `inside = false` its destination bytes are all `0`,
and with `inside = true` they are a byte-for-byte copy of some source
pixel (never the zero fill). -/
theorem C2_inner_disk_policy {p : WarpInput} {out : List ℕ} {x y : ℕ}
    (h : warp p = some out) (hx : x < p.width) (hy : y < p.height)
    (hroi : inROI p x y) (hC : 0 < p.psize)
    (hlen : p.src.length = p.width * p.height * p.psize)
    (hio : innerRadius p ≤ outerRadius p)
    (hr : rOf p x y < innerRadius p) :
    ratioOf p x y < 0 ∧
      (p.inside = false → ∀ i, i < p.psize →
        out[posOrig p x y + i]? = some 0) ∧
      (p.inside = true → ∃ k, k < p.width * p.height ∧ ∀ i, i < p.psize →
        out[posOrig p x y + i]? = p.src[k * p.psize + i]?) := by
  have hraw : rawRatio p x y < 0 := rawRatio_neg_of_inner hio hr
  have hρ : ratioOf p x y = rawRatio p x y := ratioOf_eq_raw (by linarith)
  have hρneg : ratioOf p x y < 0 := by rw [hρ]; exact hraw
  obtain ⟨hlen2, hpt⟩ := warp_some_pointwise h
  refine ⟨hρneg, fun hin i hi => ?_, fun hin => ?_⟩
  · have h2 := hpt x hx y hy i hi
    rwa [if_pos hroi, destByte_black hρneg hin i] at h2
  · have hW : 0 < p.width := by omega
    have hH : 0 < p.height := by omega
    have hpw : 0 ≤ yWarp p x y * (p.width : ℤ) + xWarp p x y :=
      add_nonneg (mul_nonneg (yWarp_nonneg hH) (by positivity))
        (xWarp_nonneg hW)
    have hkZ : (((yWarp p x y * (p.width : ℤ) + xWarp p x y).toNat : ℕ) : ℤ)
        = yWarp p x y * (p.width : ℤ) + xWarp p x y :=
      Int.toNat_of_nonneg hpw
    have hvals : ∀ i, i < p.psize →
        out[posOrig p x y + i]? =
          p.src[(yWarp p x y * (p.width : ℤ) + xWarp p x y).toNat
            * p.psize + i]? := by
      intro i hi
      have h2 := hpt x hx y hy i hi
      have hnn : (0 : ℤ) ≤ posWarp p x y + (i : ℤ) := by
        rw [posWarp]
        exact add_nonneg (mul_nonneg hpw (by positivity)) (by positivity)
      rw [if_pos hroi, destByte, if_pos (Or.inr hin),
        pyGet_of_nonneg _ hnn] at h2
      have harg : (((yWarp p x y * (p.width : ℤ) + xWarp p x y).toNat
          * p.psize + i : ℕ) : ℤ) = posWarp p x y + (i : ℤ) := by
        rw [posWarp]
        push_cast [hkZ]
        ring
      rwa [← harg, Int.toNat_natCast] at h2
    refine ⟨(yWarp p x y * (p.width : ℤ) + xWarp p x y).toNat, ?_, hvals⟩
    by_contra hge
    push_neg at hge
    have hnone : p.src[(yWarp p x y * (p.width : ℤ) + xWarp p x y).toNat
        * p.psize + 0]? = none := by
      apply List.getElem?_eq_none
      rw [hlen]
      calc p.width * p.height * p.psize
          ≤ (yWarp p x y * (p.width : ℤ) + xWarp p x y).toNat * p.psize :=
            Nat.mul_le_mul_right _ hge
        _ ≤ _ := by omega
    have hsome := hvals 0 hC
    rw [hnone] at hsome
    rw [List.getElem?_eq_none_iff] at hsome
    have := posOrig_add_lt hx hy hC
    omega

/-- C10: with `outer% < inner%` the degenerate-denominator guard does not
fire (the negative denominator is used unchanged), every selection pixel
with radial distance beyond the inner radius gets a negative ratio (and
with `inside = false` is written as zero bytes), while pixels strictly
inside the inner radius get a positive ratio and are sampled from the
source: the lens band and the blacked-out region swap roles. -/
theorem C10_negative_denom_swaps_roles {p : WarpInput}
    (hx12 : p.x1 < p.x2) (hy12 : p.y1 < p.y2)
    (hop : p.outerP < p.innerP) :
    denomEff p = outerRadius p - innerRadius p ∧ denomEff p < 0 ∧
      ∀ x y : ℕ,
        (innerRadius p < rOf p x y → ratioOf p x y < 0 ∧
          (p.inside = false → ∀ i, destByte p x y i = some 0)) ∧
        (rOf p x y < innerRadius p → 0 < ratioOf p x y ∧
          (∀ i, destByte p x y i =
            pyGet p.src (posWarp p x y + (i : ℤ)))) := by
  have hmr := maxRadius_pos hx12 hy12
  have hneg : outerRadius p - innerRadius p < 0 := by
    rw [outerRadius, innerRadius]
    have : maxRadius p * p.outerP < maxRadius p * p.innerP :=
      (mul_lt_mul_left hmr).mpr hop
    linarith
  have hde : denomEff p = outerRadius p - innerRadius p :=
    if_neg (ne_of_lt hneg)
  have hdneg : denomEff p < 0 := by rw [hde]; exact hneg
  refine ⟨hde, hdneg, fun x y => ⟨fun hout => ?_, fun hin => ?_⟩⟩
  · have hraw : rawRatio p x y < 0 :=
      lt_of_le_of_lt (min_le_right _ _)
        (div_neg_of_pos_of_neg (by linarith) hdneg)
    have hρ : ratioOf p x y < 0 := by
      rw [ratioOf_eq_raw (by linarith)]
      exact hraw
    exact ⟨hρ, fun hinv i => destByte_black hρ hinv i⟩
  · have hraw : 0 < rawRatio p x y :=
      lt_min one_pos (div_pos_iff.mpr (Or.inr ⟨by linarith, hdneg⟩))
    obtain ⟨_, hpos, _⟩ := ratioOf_of_pos hraw
    exact ⟨hpos, fun i => destByte_sampled hpos.le i⟩

/-! ### Machinery for evaluating the warp on concrete inputs -/

/-- Computable form of `writePixel` once the sampling condition holds and
the warp position `q` is known. -/
def sampleWrite (src : List ℕ) (q : ℤ) (pos C : ℕ) (d : List ℕ) :
    Option (List ℕ) :=
  iterUp (fun d2 i => (pyGet src (q + (i : ℤ))).bind fun v =>
    pySet d2 ((pos : ℤ) + (i : ℤ)) v) C d

/-- Computable form of `writePixel` in the zero-fill branch. -/
def blackWrite (pos C : ℕ) (d : List ℕ) : Option (List ℕ) :=
  iterUp (fun d2 i => pySet d2 ((pos : ℤ) + (i : ℤ)) 0) C d

theorem writePixel_eq_sample {p : WarpInput} {x y : ℕ} {q : ℤ}
    (h : 0 ≤ ratioOf p x y ∨ p.inside = true) (hq : posWarp p x y = q)
    (d : List ℕ) :
    writePixel p x y d = sampleWrite p.src q (posOrig p x y) p.psize d := by
  unfold writePixel sampleWrite
  apply iterUp_congr
  intro d2 i
  rw [destByte, if_pos h, hq]

theorem writePixel_eq_black {p : WarpInput} {x y : ℕ}
    (h : ratioOf p x y < 0) (hin : p.inside = false) (d : List ℕ) :
    writePixel p x y d = blackWrite (posOrig p x y) p.psize d := by
  unfold writePixel blackWrite
  apply iterUp_congr
  intro d2 i
  rw [destByte_black h hin i, Option.some_bind]

/-- The body of the row loop of `colStep`, named for stepwise evaluation. -/
noncomputable def rowFun (p : WarpInput) (x : ℕ) :
    List ℕ → ℕ → Option (List ℕ) :=
  fun d2 y => if (y : ℤ) < p.y1 ∨ p.y2 ≤ (y : ℤ) then some d2
    else writePixel p x y d2

/-- The body of the column loop of `warp`, named for stepwise evaluation. -/
noncomputable def colFun (p : WarpInput) : List ℕ → ℕ → Option (List ℕ) :=
  fun d x => colStep p x d

theorem warp_eq_iter (p : WarpInput) :
    warp p = iterUp (colFun p) p.width p.src := rfl

theorem colStep_skip {p : WarpInput} {x : ℕ}
    (h : (x : ℤ) < p.x1 ∨ p.x2 ≤ (x : ℤ)) (d : List ℕ) :
    colStep p x d = some d := by
  rw [colStep, if_pos h]

theorem colStep_rows {p : WarpInput} {x : ℕ}
    (h : ¬((x : ℤ) < p.x1 ∨ p.x2 ≤ (x : ℤ))) (d : List ℕ) :
    colStep p x d = iterUp (rowFun p x) p.height d := by
  rw [colStep, if_neg h]
  rfl

theorem rowFun_skip {p : WarpInput} {x y : ℕ}
    (h : (y : ℤ) < p.y1 ∨ p.y2 ≤ (y : ℤ)) (d : List ℕ) :
    rowFun p x d y = some d := if_pos h

theorem rowFun_write {p : WarpInput} {x y : ℕ}
    (h : ¬((y : ℤ) < p.y1 ∨ p.y2 ≤ (y : ℤ))) (d : List ℕ) :
    rowFun p x d y = writePixel p x y d := if_neg h

theorem iterUp_step_some {f : List ℕ → ℕ → Option (List ℕ)} {n : ℕ}
    {d d2 : List ℕ} {out : Option (List ℕ)}
    (h1 : iterUp f n d = some d2) (h2 : f d2 n = out) :
    iterUp f (n + 1) d = out := by
  rw [iterUp_succ, h1, Option.some_bind, h2]

theorem iterUp_step_none {f : List ℕ → ℕ → Option (List ℕ)} {n : ℕ}
    {d : List ℕ} (h : iterUp f n d = none) : iterUp f (n + 1) d = none := by
  rw [iterUp_succ, h]
  rfl

/-! ### Ratio values from squared radial distances -/

theorem rawRatio_eq_one_of_sq {p : WarpInput} {x y : ℕ}
    (hd : 0 < denomEff p) (hnn : 0 ≤ innerRadius p + denomEff p)
    (hs : (innerRadius p + denomEff p) ^ 2 ≤ dxOf p x ^ 2 + dyOf p y ^ 2) :
    rawRatio p x y = 1 := by
  apply rawRatio_eq_one
  rw [le_div_iff₀ hd, one_mul]
  have h1 : innerRadius p + denomEff p ≤ rOf p x y := by
    rw [rOf]
    exact (Real.le_sqrt hnn (by positivity)).mpr hs
  linarith

theorem ratioOf_neg_of_sq {p : WarpInput} {x y : ℕ} (hd : 0 < denomEff p)
    (hinn : 0 ≤ innerRadius p)
    (hs : dxOf p x ^ 2 + dyOf p y ^ 2 < innerRadius p ^ 2) :
    ratioOf p x y < 0 := by
  have hipos : 0 < innerRadius p := by
    nlinarith [sq_nonneg (dxOf p x), sq_nonneg (dyOf p y)]
  have hr : rOf p x y < innerRadius p := by
    rw [rOf]
    exact (Real.sqrt_lt' hipos).mpr hs
  have hraw : rawRatio p x y < 0 :=
    lt_of_le_of_lt (min_le_right _ _)
      (div_neg_of_neg_of_pos (by linarith) hd)
  rw [ratioOf_eq_raw (by linarith)]
  exact hraw

theorem ratioOf_neg_of_sq_beyond {p : WarpInput} {x y : ℕ}
    (hd : denomEff p < 0) (hinn : 0 ≤ innerRadius p)
    (hs : innerRadius p ^ 2 < dxOf p x ^ 2 + dyOf p y ^ 2) :
    ratioOf p x y < 0 := by
  have hr : innerRadius p < rOf p x y := by
    rw [rOf]
    exact (Real.lt_sqrt hinn).mpr hs
  have hraw : rawRatio p x y < 0 :=
    lt_of_le_of_lt (min_le_right _ _)
      (div_neg_of_pos_of_neg (by linarith) hd)
  rw [ratioOf_eq_raw (by linarith)]
  exact hraw

theorem ratioOf_zero_of_sq {p : WarpInput} {x y : ℕ}
    (hinn : 0 ≤ innerRadius p)
    (hs : dxOf p x ^ 2 + dyOf p y ^ 2 = innerRadius p ^ 2) :
    ratioOf p x y = 0 := by
  have hr : rOf p x y = innerRadius p := by
    rw [rOf, hs, Real.sqrt_sq hinn]
  have hraw : rawRatio p x y = 0 := by
    rw [rawRatio, hr, sub_self, zero_div]
    exact min_eq_right (by norm_num)
  rw [ratioOf_eq_raw (by rw [hraw]; norm_num), hraw]

/-! ### Warped coordinates from explicit bounds -/

theorem xWarp_eq_of_bounds {p : WarpInput} {x y : ℕ} {k : ℤ}
    (h0 : 0 ≤ dxOf p x * ratioOf p x y + xCenter p)
    (h1 : dxOf p x * ratioOf p x y + xCenter p < p.width)
    (h2 : (k : ℝ) ≤ dxOf p x * ratioOf p x y + xCenter p + 1/2)
    (h3 : dxOf p x * ratioOf p x y + xCenter p + 1/2 < (k : ℝ) + 1) :
    xWarp p x y = k := by
  rw [xWarp, fmod_eq_self h0 h1]
  exact pyRound_eq_of h0 h2 h3

theorem yWarp_eq_of_bounds {p : WarpInput} {x y : ℕ} {k : ℤ}
    (h0 : 0 ≤ dyOf p y * ratioOf p x y + yCenter p)
    (h1 : dyOf p y * ratioOf p x y + yCenter p < p.height)
    (h2 : (k : ℝ) ≤ dyOf p y * ratioOf p x y + yCenter p + 1/2)
    (h3 : dyOf p y * ratioOf p x y + yCenter p + 1/2 < (k : ℝ) + 1) :
    yWarp p x y = k := by
  rw [yWarp, fmod_eq_self h0 h1]
  exact pyRound_eq_of h0 h2 h3

theorem posWarp_eq_of {p : WarpInput} {x y : ℕ} {a b : ℤ}
    (ha : xWarp p x y = a) (hb : yWarp p x y = b) :
    posWarp p x y = (b * (p.width : ℤ) + a) * (p.psize : ℤ) := by
  rw [posWarp, ha, hb]

/-! ### Concrete input `ipA`: 2 by 1 grayscale buffer, selection the
single pixel `(0,0)`, default radii 50 / 100, `inside = false` -/

def ipA : WarpInput := ⟨2, 1, 1, 0, 0, 1, 1, 50, 100, false, [5, 7]⟩

theorem ipA_inner : innerRadius ipA = 1/4 := by
  rw [innerRadius, maxRadius]
  norm_num [ipA]

theorem ipA_denom : denomEff ipA = 1/4 := by
  have ho : outerRadius ipA = 1/2 := by
    rw [outerRadius, maxRadius]
    norm_num [ipA]
  rw [denomEff, ho, ipA_inner]
  norm_num

theorem ipA_ratio : ratioOf ipA 0 0 = 1 := by
  refine ratioOf_eq_one (rawRatio_eq_one_of_sq (by rw [ipA_denom]; norm_num)
    (by rw [ipA_inner, ipA_denom]; norm_num) ?_)
  rw [ipA_inner, ipA_denom, dxOf, dyOf, xCenter, yCenter]
  norm_num [ipA]

theorem warp_ipA : warp ipA = some [5, 7] := by
  have hpix : writePixel ipA 0 0 ipA.src = some [5, 7] := by
    rw [writePixel_eq_sample (Or.inl (by rw [ipA_ratio]; norm_num))
      (posWarp_id ipA_ratio (by norm_num [ipA]) (by norm_num [ipA]))
      ipA.src]
    decide
  have hcol0 : colStep ipA 0 ipA.src = some [5, 7] := by
    rw [colStep_rows (by decide) ipA.src]
    have r1 : iterUp (rowFun ipA 0) 1 ipA.src = some [5, 7] :=
      iterUp_step_some (iterUp_zero _ _)
        ((rowFun_write (by decide) ipA.src).trans hpix)
    exact r1
  have hcol1 : colStep ipA 1 [5, 7] = some [5, 7] :=
    colStep_skip (by decide) _
  have s1 : iterUp (colFun ipA) 1 ipA.src = some [5, 7] :=
    iterUp_step_some (iterUp_zero _ _) hcol0
  have s2 : iterUp (colFun ipA) 2 ipA.src = some [5, 7] :=
    iterUp_step_some s1 hcol1
  rw [warp_eq_iter]
  exact s2

/-! ### Concrete input `ip1`: 1 by 1 grayscale buffer, full selection,
radii 100 / 0, `inside = true` — the warped coordinate rounds up to the
buffer width and the sampling read overflows -/

def ip1 : WarpInput := ⟨1, 1, 1, 0, 0, 1, 1, 100, 0, true, [42]⟩

theorem ip1_ratio : ratioOf ip1 0 0 = 1 - 2 * Real.sqrt (1/2) := by
  have hi : innerRadius ip1 = 1/2 := by
    rw [innerRadius, maxRadius]
    norm_num [ip1]
  have ho : outerRadius ip1 = 0 := by
    rw [outerRadius, maxRadius]
    norm_num [ip1]
  have hd : denomEff ip1 = -(1/2) := by
    rw [denomEff, hi, ho]
    norm_num
  have hr : rOf ip1 0 0 = Real.sqrt (1/2) := by
    rw [rOf, dxOf, dyOf, xCenter, yCenter]
    norm_num [ip1]
  have hs0 : 0 ≤ Real.sqrt (1/2) := Real.sqrt_nonneg _
  have hs2 : Real.sqrt (1/2) ^ 2 = 1/2 := Real.sq_sqrt (by norm_num)
  have hdiv : (Real.sqrt (1/2) - 1/2) / (-(1/2)) = 1 - 2 * Real.sqrt (1/2) := by
    ring
  have hraw : rawRatio ip1 0 0 = 1 - 2 * Real.sqrt (1/2) := by
    rw [rawRatio, hr, hi, hd, hdiv]
    exact min_eq_right (by nlinarith)
  rw [ratioOf_eq_raw (by rw [hraw]; exact not_lt.mpr (by nlinarith)), hraw]

theorem ip1_coords : xWarp ip1 0 0 = 1 ∧ yWarp ip1 0 0 = 1 := by
  have hs0 : 0 ≤ Real.sqrt (1/2) := Real.sqrt_nonneg _
  have hs2 : Real.sqrt (1/2) ^ 2 = 1/2 := Real.sq_sqrt (by norm_num)
  have hlo : 7/10 < Real.sqrt (1/2) := by nlinarith
  have hhi : Real.sqrt (1/2) < 3/4 := by nlinarith
  have hdx : dxOf ip1 0 = -(1/2) := by
    rw [dxOf, xCenter]
    norm_num [ip1]
  have hdy : dyOf ip1 0 = -(1/2) := by
    rw [dyOf, yCenter]
    norm_num [ip1]
  have hxc : xCenter ip1 = 1/2 := by
    rw [xCenter]
    norm_num [ip1]
  have hyc : yCenter ip1 = 1/2 := by
    rw [yCenter]
    norm_num [ip1]
  have hwr : ((ip1.width : ℕ) : ℝ) = 1 := by norm_num [ip1]
  have hhr : ((ip1.height : ℕ) : ℝ) = 1 := by norm_num [ip1]
  constructor
  · refine xWarp_eq_of_bounds ?_ ?_ ?_ ?_
    · rw [hdx, hxc, ip1_ratio]; linarith
    · rw [hdx, hxc, ip1_ratio, hwr]; linarith
    · rw [hdx, hxc, ip1_ratio]; push_cast; linarith
    · rw [hdx, hxc, ip1_ratio]; push_cast; linarith
  · refine yWarp_eq_of_bounds ?_ ?_ ?_ ?_
    · rw [hdy, hyc, ip1_ratio]; linarith
    · rw [hdy, hyc, ip1_ratio, hhr]; linarith
    · rw [hdy, hyc, ip1_ratio]; push_cast; linarith
    · rw [hdy, hyc, ip1_ratio]; push_cast; linarith

theorem warp_ip1_none : warp ip1 = none := by
  have hpw : posWarp ip1 0 0 = (1 * (ip1.width : ℤ) + 1) * (ip1.psize : ℤ) :=
    posWarp_eq_of ip1_coords.1 ip1_coords.2
  have hpix : writePixel ip1 0 0 ip1.src = none := by
    rw [writePixel_eq_sample (Or.inr rfl) hpw ip1.src]
    decide
  have hcol0 : colStep ip1 0 ip1.src = none := by
    rw [colStep_rows (by decide) ip1.src]
    exact iterUp_step_some (iterUp_zero _ _)
      ((rowFun_write (by decide) ip1.src).trans hpix)
  rw [warp_eq_iter]
  exact iterUp_step_some (iterUp_zero _ _) hcol0

/-- C1 is refuted by the code: on `ip1` (a valid input — 1 by 1 buffer,
full selection, radii percentages 100 and 0, `inside = true`), the
processed ROI pixel `(0,0)` gets warped coordinates `x_warp = width` and
`y_warp = height` (the wrap happens before rounding, and rounding to the
nearest integer bumps the coordinate back up to the modulus), so the
flat-buffer read index is out of bounds and the warp aborts with an
`IndexError` (modelled as `none`). -/
theorem C1_warp_coordinate_overflow :
    inROI ip1 0 0 ∧ xWarp ip1 0 0 = (ip1.width : ℤ) ∧
      yWarp ip1 0 0 = (ip1.height : ℤ) ∧ warp ip1 = none := by
  refine ⟨by decide, ?_, ?_, warp_ip1_none⟩
  · rw [ip1_coords.1]; decide
  · rw [ip1_coords.2]; decide

/-- Lower bound on the shaped ratio from a bound on the squared term. -/
theorem ratioOf_gt_of {p : WarpInput} {x y : ℕ} {c : ℝ}
    (h : 0 < rawRatio p x y) (hc : 0 ≤ c)
    (hlt : c ^ 2 < 1 - (1 - rawRatio p x y) ^ 2) : c < ratioOf p x y := by
  obtain ⟨ht, _⟩ := shaping_bounds h (rawRatio_le_one p x y)
  obtain ⟨heq, hpos, _⟩ := ratioOf_of_pos h
  have h2 : ratioOf p x y ^ 2 = 1 - (1 - rawRatio p x y) ^ 2 := by
    rw [heq]
    exact Real.sq_sqrt ht.le
  nlinarith

/-! ### Concrete input `ip4`: 2 by 2 grayscale buffer, selection
`(1,0)-(2,2)`, radii 100 / 100 (degenerate), `inside = false` — the
guard replaces the zero denominator by 1, but pixel `(1,1)` sits exactly
at the inner radius with the column centre at `width - 1/2`, its warped
x coordinate rounds up to the width, and the warp aborts -/

def ip4 : WarpInput := ⟨2, 2, 1, 1, 0, 2, 2, 100, 100, false, [1, 2, 3, 4]⟩

theorem ip4_inner : innerRadius ip4 = 1/2 := by
  rw [innerRadius, maxRadius]
  norm_num [ip4]

theorem ip4_denom : denomEff ip4 = 1 := by
  have ho : outerRadius ip4 = 1/2 := by
    rw [outerRadius, maxRadius]
    norm_num [ip4]
  rw [denomEff, ho, ip4_inner]
  norm_num

theorem ip4_ratio_10 : 9/10 < ratioOf ip4 1 0 ∧ ratioOf ip4 1 0 ≤ 1 := by
  have hs0 : 0 ≤ Real.sqrt (5/4) := Real.sqrt_nonneg _
  have hs2 : Real.sqrt (5/4) ^ 2 = 5/4 := Real.sq_sqrt (by norm_num)
  have hsl : 111/100 < Real.sqrt (5/4) := by nlinarith
  have hsu : Real.sqrt (5/4) < 112/100 := by nlinarith
  have hr : rOf ip4 1 0 = Real.sqrt (5/4) := by
    rw [rOf, dxOf, dyOf, xCenter, yCenter]
    norm_num [ip4]
  have hraw : rawRatio ip4 1 0 = Real.sqrt (5/4) - 1/2 := by
    rw [rawRatio, hr, ip4_inner, ip4_denom, div_one]
    exact min_eq_right (by nlinarith)
  have hpos : 0 < rawRatio ip4 1 0 := by
    rw [hraw]
    linarith
  refine ⟨?_, (ratioOf_of_pos hpos).2.2⟩
  apply ratioOf_gt_of hpos (by norm_num)
  rw [hraw]
  nlinarith

theorem ip4_coords_10 : xWarp ip4 1 0 = 1 ∧ yWarp ip4 1 0 = 0 := by
  obtain ⟨hlo, hhi⟩ := ip4_ratio_10
  have hdx : dxOf ip4 1 = -(1/2) := by
    rw [dxOf, xCenter]
    norm_num [ip4]
  have hdy : dyOf ip4 0 = -1 := by
    rw [dyOf, yCenter]
    norm_num [ip4]
  have hxc : xCenter ip4 = 3/2 := by
    rw [xCenter]
    norm_num [ip4]
  have hyc : yCenter ip4 = 1 := by
    rw [yCenter]
    norm_num [ip4]
  have hwr : ((ip4.width : ℕ) : ℝ) = 2 := by norm_num [ip4]
  have hhr : ((ip4.height : ℕ) : ℝ) = 2 := by norm_num [ip4]
  constructor
  · refine xWarp_eq_of_bounds ?_ ?_ ?_ ?_
    · rw [hdx, hxc]; linarith
    · rw [hdx, hxc, hwr]; linarith
    · rw [hdx, hxc]; push_cast; linarith
    · rw [hdx, hxc]; push_cast; linarith
  · refine yWarp_eq_of_bounds ?_ ?_ ?_ ?_
    · rw [hdy, hyc]; linarith
    · rw [hdy, hyc, hhr]; linarith
    · rw [hdy, hyc]; push_cast; linarith
    · rw [hdy, hyc]; push_cast; linarith

theorem ip4_ratio_11 : ratioOf ip4 1 1 = 0 := by
  apply ratioOf_zero_of_sq (by rw [ip4_inner]; norm_num)
  rw [ip4_inner, dxOf, dyOf, xCenter, yCenter]
  norm_num [ip4]

theorem ip4_coords_11 : xWarp ip4 1 1 = 2 ∧ yWarp ip4 1 1 = 1 := by
  have hdx : dxOf ip4 1 = -(1/2) := by
    rw [dxOf, xCenter]
    norm_num [ip4]
  have hdy : dyOf ip4 1 = 0 := by
    rw [dyOf, yCenter]
    norm_num [ip4]
  have hwr : ((ip4.width : ℕ) : ℝ) = 2 := by norm_num [ip4]
  have hhr : ((ip4.height : ℕ) : ℝ) = 2 := by norm_num [ip4]
  have hxc : xCenter ip4 = 3/2 := by
    rw [xCenter]
    norm_num [ip4]
  have hyc : yCenter ip4 = 1 := by
    rw [yCenter]
    norm_num [ip4]
  constructor
  · refine xWarp_eq_of_bounds ?_ ?_ ?_ ?_
    · rw [hdx, hxc, ip4_ratio_11]; linarith
    · rw [hdx, hxc, ip4_ratio_11, hwr]; linarith
    · rw [hdx, hxc, ip4_ratio_11]; push_cast; linarith
    · rw [hdx, hxc, ip4_ratio_11]; push_cast; linarith
  · refine yWarp_eq_of_bounds ?_ ?_ ?_ ?_
    · rw [hdy, hyc, ip4_ratio_11]; linarith
    · rw [hdy, hyc, ip4_ratio_11, hhr]; linarith
    · rw [hdy, hyc, ip4_ratio_11]; push_cast; linarith
    · rw [hdy, hyc, ip4_ratio_11]; push_cast; linarith

theorem warp_ip4_none : warp ip4 = none := by
  have hpw10 : posWarp ip4 1 0 = (0 * (ip4.width : ℤ) + 1) * (ip4.psize : ℤ) :=
    posWarp_eq_of ip4_coords_10.1 ip4_coords_10.2
  have hpix10 : writePixel ip4 1 0 ip4.src = some [1, 2, 3, 4] := by
    rw [writePixel_eq_sample (Or.inl (by linarith [ip4_ratio_10.1]))
      hpw10 ip4.src]
    decide
  have hpw11 : posWarp ip4 1 1 = (1 * (ip4.width : ℤ) + 2) * (ip4.psize : ℤ) :=
    posWarp_eq_of ip4_coords_11.1 ip4_coords_11.2
  have hpix11 : writePixel ip4 1 1 [1, 2, 3, 4] = none := by
    rw [writePixel_eq_sample (Or.inl (by rw [ip4_ratio_11]))
      hpw11 [1, 2, 3, 4]]
    decide
  have hcol1 : colStep ip4 1 ip4.src = none := by
    rw [colStep_rows (by decide) ip4.src]
    have r1 : iterUp (rowFun ip4 1) 1 ip4.src = some [1, 2, 3, 4] :=
      iterUp_step_some (iterUp_zero _ _)
        ((rowFun_write (by decide) ip4.src).trans hpix10)
    exact iterUp_step_some r1
      ((rowFun_write (by decide) [1, 2, 3, 4]).trans hpix11)
  have s1 : iterUp (colFun ip4) 1 ip4.src = some ip4.src :=
    iterUp_step_some (iterUp_zero _ _) (colStep_skip (by decide) ip4.src)
  rw [warp_eq_iter]
  exact iterUp_step_some s1 hcol1

/-- C4 is a correct description of the degenerate-radius guard (the zero
denominator is replaced by 1, no division by zero), but its claim that a
complete output buffer is still produced fails: on `ip4` (equal radii
percentages 100/100, 2 by 2 buffer, selection `(1,0)-(2,2)`), pixel
`(1,1)` lies exactly at the inner radius, its warped x coordinate rounds
up to the width, and the warp aborts with an `IndexError` instead of
returning a buffer. -/
theorem C4_degenerate_guard_but_crash :
    denomEff ip4 = 1 ∧
      innerRadius ip4 = outerRadius ip4 ∧ warp ip4 = none := by
  refine ⟨ip4_denom, ?_, warp_ip4_none⟩
  have ho : outerRadius ip4 = 1/2 := by
    rw [outerRadius, maxRadius]
    norm_num [ip4]
  rw [ip4_inner, ho]

/-! ### Concrete input `ip5`: 3 by 2 grayscale buffer, selection
`(1,0)-(2,2)`, radii 100 / 100, `inside = false` — pixel `(1,1)` sits
exactly at the outer radius yet its output is sampled from a different
source pixel -/

def ip5 : WarpInput := ⟨3, 2, 1, 1, 0, 2, 2, 100, 100, false,
  [1, 2, 3, 4, 5, 6]⟩

theorem ip5_inner : innerRadius ip5 = 1/2 := by
  rw [innerRadius, maxRadius]
  norm_num [ip5]

theorem ip5_outer : outerRadius ip5 = 1/2 := by
  rw [outerRadius, maxRadius]
  norm_num [ip5]

theorem ip5_denom : denomEff ip5 = 1 := by
  rw [denomEff, ip5_outer, ip5_inner]
  norm_num

theorem ip5_ratio_10 : 9/10 < ratioOf ip5 1 0 ∧ ratioOf ip5 1 0 ≤ 1 := by
  have hs0 : 0 ≤ Real.sqrt (5/4) := Real.sqrt_nonneg _
  have hs2 : Real.sqrt (5/4) ^ 2 = 5/4 := Real.sq_sqrt (by norm_num)
  have hsl : 111/100 < Real.sqrt (5/4) := by nlinarith
  have hsu : Real.sqrt (5/4) < 112/100 := by nlinarith
  have hr : rOf ip5 1 0 = Real.sqrt (5/4) := by
    rw [rOf, dxOf, dyOf, xCenter, yCenter]
    norm_num [ip5]
  have hraw : rawRatio ip5 1 0 = Real.sqrt (5/4) - 1/2 := by
    rw [rawRatio, hr, ip5_inner, ip5_denom, div_one]
    exact min_eq_right (by nlinarith)
  have hpos : 0 < rawRatio ip5 1 0 := by
    rw [hraw]
    linarith
  refine ⟨?_, (ratioOf_of_pos hpos).2.2⟩
  apply ratioOf_gt_of hpos (by norm_num)
  rw [hraw]
  nlinarith

theorem ip5_coords_10 : xWarp ip5 1 0 = 1 ∧ yWarp ip5 1 0 = 0 := by
  obtain ⟨hlo, hhi⟩ := ip5_ratio_10
  have hdx : dxOf ip5 1 = -(1/2) := by
    rw [dxOf, xCenter]
    norm_num [ip5]
  have hdy : dyOf ip5 0 = -1 := by
    rw [dyOf, yCenter]
    norm_num [ip5]
  have hxc : xCenter ip5 = 3/2 := by
    rw [xCenter]
    norm_num [ip5]
  have hyc : yCenter ip5 = 1 := by
    rw [yCenter]
    norm_num [ip5]
  have hwr : ((ip5.width : ℕ) : ℝ) = 3 := by norm_num [ip5]
  have hhr : ((ip5.height : ℕ) : ℝ) = 2 := by norm_num [ip5]
  constructor
  · refine xWarp_eq_of_bounds ?_ ?_ ?_ ?_
    · rw [hdx, hxc]; linarith
    · rw [hdx, hxc, hwr]; linarith
    · rw [hdx, hxc]; push_cast; linarith
    · rw [hdx, hxc]; push_cast; linarith
  · refine yWarp_eq_of_bounds ?_ ?_ ?_ ?_
    · rw [hdy, hyc]; linarith
    · rw [hdy, hyc, hhr]; linarith
    · rw [hdy, hyc]; push_cast; linarith
    · rw [hdy, hyc]; push_cast; linarith

theorem ip5_r_11 : rOf ip5 1 1 = 1/2 := by
  have : dxOf ip5 1 ^ 2 + dyOf ip5 1 ^ 2 = (1/2 : ℝ) ^ 2 := by
    rw [dxOf, dyOf, xCenter, yCenter]
    norm_num [ip5]
  rw [rOf, this, Real.sqrt_sq (by norm_num)]

theorem ip5_ratio_11 : ratioOf ip5 1 1 = 0 := by
  apply ratioOf_zero_of_sq (by rw [ip5_inner]; norm_num)
  rw [ip5_inner, dxOf, dyOf, xCenter, yCenter]
  norm_num [ip5]

theorem ip5_coords_11 : xWarp ip5 1 1 = 2 ∧ yWarp ip5 1 1 = 1 := by
  have hdx : dxOf ip5 1 = -(1/2) := by
    rw [dxOf, xCenter]
    norm_num [ip5]
  have hdy : dyOf ip5 1 = 0 := by
    rw [dyOf, yCenter]
    norm_num [ip5]
  have hxc : xCenter ip5 = 3/2 := by
    rw [xCenter]
    norm_num [ip5]
  have hyc : yCenter ip5 = 1 := by
    rw [yCenter]
    norm_num [ip5]
  have hwr : ((ip5.width : ℕ) : ℝ) = 3 := by norm_num [ip5]
  have hhr : ((ip5.height : ℕ) : ℝ) = 2 := by norm_num [ip5]
  constructor
  · refine xWarp_eq_of_bounds ?_ ?_ ?_ ?_
    · rw [hdx, hxc, ip5_ratio_11]; linarith
    · rw [hdx, hxc, ip5_ratio_11, hwr]; linarith
    · rw [hdx, hxc, ip5_ratio_11]; push_cast; linarith
    · rw [hdx, hxc, ip5_ratio_11]; push_cast; linarith
  · refine yWarp_eq_of_bounds ?_ ?_ ?_ ?_
    · rw [hdy, hyc, ip5_ratio_11]; linarith
    · rw [hdy, hyc, ip5_ratio_11, hhr]; linarith
    · rw [hdy, hyc, ip5_ratio_11]; push_cast; linarith
    · rw [hdy, hyc, ip5_ratio_11]; push_cast; linarith

theorem warp_ip5 : warp ip5 = some [1, 2, 3, 4, 6, 6] := by
  have hpix10 : writePixel ip5 1 0 ip5.src = some [1, 2, 3, 4, 5, 6] := by
    rw [writePixel_eq_sample (Or.inl (by linarith [ip5_ratio_10.1]))
      (posWarp_eq_of ip5_coords_10.1 ip5_coords_10.2) ip5.src]
    decide
  have hpix11 : writePixel ip5 1 1 [1, 2, 3, 4, 5, 6]
      = some [1, 2, 3, 4, 6, 6] := by
    rw [writePixel_eq_sample (Or.inl (by rw [ip5_ratio_11]))
      (posWarp_eq_of ip5_coords_11.1 ip5_coords_11.2) [1, 2, 3, 4, 5, 6]]
    decide
  have hcol1 : colStep ip5 1 ip5.src = some [1, 2, 3, 4, 6, 6] := by
    rw [colStep_rows (by decide) ip5.src]
    have r1 : iterUp (rowFun ip5 1) 1 ip5.src = some [1, 2, 3, 4, 5, 6] :=
      iterUp_step_some (iterUp_zero _ _)
        ((rowFun_write (by decide) ip5.src).trans hpix10)
    exact iterUp_step_some r1
      ((rowFun_write (by decide) [1, 2, 3, 4, 5, 6]).trans hpix11)
  have s1 : iterUp (colFun ip5) 1 ip5.src = some ip5.src :=
    iterUp_step_some (iterUp_zero _ _) (colStep_skip (by decide) ip5.src)
  have s2 : iterUp (colFun ip5) 2 ip5.src = some [1, 2, 3, 4, 6, 6] :=
    iterUp_step_some s1 hcol1
  have s3 : iterUp (colFun ip5) 3 ip5.src = some [1, 2, 3, 4, 6, 6] :=
    iterUp_step_some s2 (colStep_skip (by decide) _)
  rw [warp_eq_iter]
  exact s3

/-- C5 as stated is false: on `ip5` (equal radii percentages, so the
degenerate denominator 1 is used), the selection pixel `(1,1)` lies
exactly at the outer radius, yet its clamped ratio is 0 (not 1) and its
output byte is sampled from source pixel `(2,1)`, not copied from
`(1,1)`: there is displacement at the outer radius. -/
theorem C5_counterexample :
    inROI ip5 1 1 ∧ outerRadius ip5 ≤ rOf ip5 1 1 ∧
      warp ip5 = some [1, 2, 3, 4, 6, 6] ∧
      ¬ ([1, 2, 3, 4, 6, 6] : List ℕ)[posOrig ip5 1 1 + 0]? =
        ip5.src[posOrig ip5 1 1 + 0]? := by
  refine ⟨by decide, ?_, warp_ip5, by decide⟩
  rw [ip5_outer, ip5_r_11]

/-! ### Concrete input `ipB`: 3 by 3 grayscale buffer of constant 42,
full selection, radii 100 / 0 (inner larger than outer), `inside = false`
— the band and the blacked-out disk swap roles -/

def ipB : WarpInput := ⟨3, 3, 1, 0, 0, 3, 3, 100, 0, false,
  [42, 42, 42, 42, 42, 42, 42, 42, 42]⟩

theorem ipB_inner : innerRadius ipB = 3/2 := by
  rw [innerRadius, maxRadius]
  norm_num [ipB]

theorem ipB_outer : outerRadius ipB = 0 := by
  rw [outerRadius, maxRadius]
  norm_num [ipB]

theorem ipB_denom : denomEff ipB = -(3/2) := by
  rw [denomEff, ipB_outer, ipB_inner]
  norm_num

theorem ipB_sq (x y : ℕ) : dxOf ipB x ^ 2 + dyOf ipB y ^ 2 =
    ((x : ℝ) - 3/2) ^ 2 + ((y : ℝ) - 3/2) ^ 2 := by
  rw [dxOf, dyOf, xCenter, yCenter]
  norm_num [ipB]

theorem ipB_black {x y : ℕ}
    (hs : innerRadius ipB ^ 2 < dxOf ipB x ^ 2 + dyOf ipB y ^ 2)
    (d : List ℕ) :
    writePixel ipB x y d = blackWrite (posOrig ipB x y) ipB.psize d :=
  writePixel_eq_black
    (ratioOf_neg_of_sq_beyond (by rw [ipB_denom]; norm_num)
      (by rw [ipB_inner]; norm_num) hs) rfl d

theorem ipB_ratio_in {x y : ℕ}
    (hs : dxOf ipB x ^ 2 + dyOf ipB y ^ 2 = 1/2) :
    4/5 < ratioOf ipB x y ∧ ratioOf ipB x y ≤ 1 := by
  have hs0 : 0 ≤ Real.sqrt (1/2) := Real.sqrt_nonneg _
  have hs2 : Real.sqrt (1/2) ^ 2 = 1/2 := Real.sq_sqrt (by norm_num)
  have hsl : 7/10 < Real.sqrt (1/2) := by nlinarith
  have hsu : Real.sqrt (1/2) < 71/100 := by nlinarith
  have hr : rOf ipB x y = Real.sqrt (1/2) := by
    rw [rOf, hs]
  have hdiv : (Real.sqrt (1/2) - 3/2) / (-(3/2)) =
      1 - 2/3 * Real.sqrt (1/2) := by ring
  have hraw : rawRatio ipB x y = 1 - 2/3 * Real.sqrt (1/2) := by
    rw [rawRatio, hr, ipB_inner, ipB_denom, hdiv]
    exact min_eq_right (by nlinarith)
  have hpos : 0 < rawRatio ipB x y := by
    rw [hraw]
    linarith
  refine ⟨?_, (ratioOf_of_pos hpos).2.2⟩
  apply ratioOf_gt_of hpos (by norm_num)
  rw [hraw]
  nlinarith

theorem ipB_r_lt_inner {x y : ℕ}
    (hs : dxOf ipB x ^ 2 + dyOf ipB y ^ 2 = 1/2) :
    rOf ipB x y < innerRadius ipB := by
  have hs0 : 0 ≤ Real.sqrt (1/2) := Real.sqrt_nonneg _
  have hs2 : Real.sqrt (1/2) ^ 2 = 1/2 := Real.sq_sqrt (by norm_num)
  have hr : rOf ipB x y = Real.sqrt (1/2) := by
    rw [rOf, hs]
  rw [hr, ipB_inner]
  nlinarith

theorem warpedCoord_bound {r : ℝ} (hlo : 4/5 < r) (hhi : r ≤ 1) {a : ℤ}
    (ha : a = 1 ∨ a = 2) :
    0 ≤ ((a : ℝ) - 3/2) * r + 3/2 ∧ ((a : ℝ) - 3/2) * r + 3/2 < 3 ∧
      (a : ℝ) ≤ ((a : ℝ) - 3/2) * r + 3/2 + 1/2 ∧
      ((a : ℝ) - 3/2) * r + 3/2 + 1/2 < (a : ℝ) + 1 := by
  rcases ha with h | h <;> subst h <;> push_cast <;>
    exact ⟨by linarith, by linarith, by linarith, by linarith⟩

theorem ipB_coords_in {x y : ℕ} {a b : ℤ}
    (hρ : 4/5 < ratioOf ipB x y ∧ ratioOf ipB x y ≤ 1)
    (hdx : dxOf ipB x = (a : ℝ) - 3/2) (ha : a = 1 ∨ a = 2)
    (hdy : dyOf ipB y = (b : ℝ) - 3/2) (hb : b = 1 ∨ b = 2) :
    xWarp ipB x y = a ∧ yWarp ipB x y = b := by
  obtain ⟨hlo, hhi⟩ := hρ
  have hxc : xCenter ipB = 3/2 := by
    rw [xCenter]
    norm_num [ipB]
  have hyc : yCenter ipB = 3/2 := by
    rw [yCenter]
    norm_num [ipB]
  have hwr : ((ipB.width : ℕ) : ℝ) = 3 := by norm_num [ipB]
  have hhr : ((ipB.height : ℕ) : ℝ) = 3 := by norm_num [ipB]
  constructor
  · obtain ⟨b1, b2, b3, b4⟩ := warpedCoord_bound hlo hhi ha
    refine xWarp_eq_of_bounds ?_ ?_ ?_ ?_ <;> rw [hdx, hxc]
    · exact b1
    · rw [hwr]; exact b2
    · exact b3
    · exact b4
  · obtain ⟨b1, b2, b3, b4⟩ := warpedCoord_bound hlo hhi hb
    refine yWarp_eq_of_bounds ?_ ?_ ?_ ?_ <;> rw [hdy, hyc]
    · exact b1
    · rw [hhr]; exact b2
    · exact b3
    · exact b4

theorem warp_ipB : warp ipB = some [0, 0, 0, 0, 42, 42, 0, 42, 42] := by
  have hr11 := @ipB_ratio_in 1 1 (by rw [ipB_sq]; norm_num)
  have hr21 := @ipB_ratio_in 2 1 (by rw [ipB_sq]; norm_num)
  have hr12 := @ipB_ratio_in 1 2 (by rw [ipB_sq]; norm_num)
  have hr22 := @ipB_ratio_in 2 2 (by rw [ipB_sq]; norm_num)
  have hdx1 : dxOf ipB 1 = ((1 : ℤ) : ℝ) - 3/2 := by
    rw [dxOf, xCenter]
    push_cast
    norm_num [ipB]
  have hdx2 : dxOf ipB 2 = ((2 : ℤ) : ℝ) - 3/2 := by
    rw [dxOf, xCenter]
    push_cast
    norm_num [ipB]
  have hdy1 : dyOf ipB 1 = ((1 : ℤ) : ℝ) - 3/2 := by
    rw [dyOf, yCenter]
    push_cast
    norm_num [ipB]
  have hdy2 : dyOf ipB 2 = ((2 : ℤ) : ℝ) - 3/2 := by
    rw [dyOf, yCenter]
    push_cast
    norm_num [ipB]
  have one_or : (1 : ℤ) = 1 ∨ (1 : ℤ) = 2 := Or.inl rfl
  have two_or : (2 : ℤ) = 1 ∨ (2 : ℤ) = 2 := Or.inr rfl
  have hc11 := @ipB_coords_in 1 1 1 1 hr11 hdx1 one_or hdy1 one_or
  have hc21 := @ipB_coords_in 2 1 2 1 hr21 hdx2 two_or hdy1 one_or
  have hc12 := @ipB_coords_in 1 2 1 2 hr12 hdx1 one_or hdy2 two_or
  have hc22 := @ipB_coords_in 2 2 2 2 hr22 hdx2 two_or hdy2 two_or
  have hcol0 : colStep ipB 0 ipB.src
      = some [0, 42, 42, 0, 42, 42, 0, 42, 42] := by
    rw [colStep_rows (by decide) ipB.src]
    have r1 : iterUp (rowFun ipB 0) 1 ipB.src
        = some [0, 42, 42, 42, 42, 42, 42, 42, 42] :=
      iterUp_step_some (iterUp_zero _ _) ((rowFun_write (by decide) _).trans
        (by rw [@ipB_black 0 0 (by rw [ipB_inner, ipB_sq]; norm_num) _]
            decide))
    have r2 : iterUp (rowFun ipB 0) 2 ipB.src
        = some [0, 42, 42, 0, 42, 42, 42, 42, 42] :=
      iterUp_step_some r1 ((rowFun_write (by decide) _).trans
        (by rw [@ipB_black 0 1 (by rw [ipB_inner, ipB_sq]; norm_num) _]
            decide))
    exact iterUp_step_some r2 ((rowFun_write (by decide) _).trans
      (by rw [@ipB_black 0 2 (by rw [ipB_inner, ipB_sq]; norm_num) _]
          decide))
  have hcol1 : colStep ipB 1 [0, 42, 42, 0, 42, 42, 0, 42, 42]
      = some [0, 0, 42, 0, 42, 42, 0, 42, 42] := by
    rw [colStep_rows (by decide) _]
    have r1 : iterUp (rowFun ipB 1) 1 [0, 42, 42, 0, 42, 42, 0, 42, 42]
        = some [0, 0, 42, 0, 42, 42, 0, 42, 42] :=
      iterUp_step_some (iterUp_zero _ _) ((rowFun_write (by decide) _).trans
        (by rw [@ipB_black 1 0 (by rw [ipB_inner, ipB_sq]; norm_num) _]
            decide))
    have r2 : iterUp (rowFun ipB 1) 2 [0, 42, 42, 0, 42, 42, 0, 42, 42]
        = some [0, 0, 42, 0, 42, 42, 0, 42, 42] :=
      iterUp_step_some r1 ((rowFun_write (by decide) _).trans
        (by rw [writePixel_eq_sample (Or.inl (by linarith [hr11.1]))
              (posWarp_eq_of hc11.1 hc11.2) _]
            decide))
    exact iterUp_step_some r2 ((rowFun_write (by decide) _).trans
      (by rw [writePixel_eq_sample (Or.inl (by linarith [hr12.1]))
            (posWarp_eq_of hc12.1 hc12.2) _]
          decide))
  have hcol2 : colStep ipB 2 [0, 0, 42, 0, 42, 42, 0, 42, 42]
      = some [0, 0, 0, 0, 42, 42, 0, 42, 42] := by
    rw [colStep_rows (by decide) _]
    have r1 : iterUp (rowFun ipB 2) 1 [0, 0, 42, 0, 42, 42, 0, 42, 42]
        = some [0, 0, 0, 0, 42, 42, 0, 42, 42] :=
      iterUp_step_some (iterUp_zero _ _) ((rowFun_write (by decide) _).trans
        (by rw [@ipB_black 2 0 (by rw [ipB_inner, ipB_sq]; norm_num) _]
            decide))
    have r2 : iterUp (rowFun ipB 2) 2 [0, 0, 42, 0, 42, 42, 0, 42, 42]
        = some [0, 0, 0, 0, 42, 42, 0, 42, 42] :=
      iterUp_step_some r1 ((rowFun_write (by decide) _).trans
        (by rw [writePixel_eq_sample (Or.inl (by linarith [hr21.1]))
              (posWarp_eq_of hc21.1 hc21.2) _]
            decide))
    exact iterUp_step_some r2 ((rowFun_write (by decide) _).trans
      (by rw [writePixel_eq_sample (Or.inl (by linarith [hr22.1]))
            (posWarp_eq_of hc22.1 hc22.2) _]
          decide))
  have s1 : iterUp (colFun ipB) 1 ipB.src
      = some [0, 42, 42, 0, 42, 42, 0, 42, 42] :=
    iterUp_step_some (iterUp_zero _ _) hcol0
  have s2 : iterUp (colFun ipB) 2 ipB.src
      = some [0, 0, 42, 0, 42, 42, 0, 42, 42] :=
    iterUp_step_some s1 hcol1
  have s3 : iterUp (colFun ipB) 3 ipB.src
      = some [0, 0, 0, 0, 42, 42, 0, 42, 42] :=
    iterUp_step_some s2 hcol2
  rw [warp_eq_iter]
  exact s3

/-- C2 as stated is false: on `ipB` (inner percentage 100, outer
percentage 0, a valid input with a negative raw denominator), the
selection pixel `(1,1)` lies strictly inside the inner radius and
`inside` is `false`, yet its destination byte is a sampled source byte
42, not 0: the inner-disk zero-fill policy does not hold without the
hypothesis `inner_radius ≤ outer_radius`. -/
theorem C2_counterexample :
    inROI ipB 1 1 ∧ rOf ipB 1 1 < innerRadius ipB ∧
      ipB.inside = false ∧
      warp ipB = some [0, 0, 0, 0, 42, 42, 0, 42, 42] ∧
      ¬ ([0, 0, 0, 0, 42, 42, 0, 42, 42] : List ℕ)[posOrig ipB 1 1 + 0]?
        = some 0 :=
  ⟨by decide, ipB_r_lt_inner (by rw [ipB_sq]; norm_num), rfl, warp_ipB,
    by decide⟩

/-! ### Concrete input `ipC`: 3 by 3 grayscale buffer `[1..9]`, full
selection, radii 50 / 100, `inside = false` — the four pixels strictly
inside the inner radius are painted black, the rest are identities -/

def ipC : WarpInput := ⟨3, 3, 1, 0, 0, 3, 3, 50, 100, false,
  [1, 2, 3, 4, 5, 6, 7, 8, 9]⟩

theorem ipC_inner : innerRadius ipC = 3/4 := by
  rw [innerRadius, maxRadius]
  norm_num [ipC]

theorem ipC_outer : outerRadius ipC = 3/2 := by
  rw [outerRadius, maxRadius]
  norm_num [ipC]

theorem ipC_denom : denomEff ipC = 3/4 := by
  rw [denomEff, ipC_outer, ipC_inner]
  norm_num

theorem ipC_sq (x y : ℕ) : dxOf ipC x ^ 2 + dyOf ipC y ^ 2 =
    ((x : ℝ) - 3/2) ^ 2 + ((y : ℝ) - 3/2) ^ 2 := by
  rw [dxOf, dyOf, xCenter, yCenter]
  norm_num [ipC]

theorem ipC_id (x y : ℕ) (hx : x < ipC.width) (hy : y < ipC.height)
    (hs : (3/2 : ℝ) ^ 2 ≤ dxOf ipC x ^ 2 + dyOf ipC y ^ 2) (d : List ℕ) :
    writePixel ipC x y d =
      sampleWrite ipC.src (posOrig ipC x y) (posOrig ipC x y) ipC.psize d := by
  have hsum : innerRadius ipC + denomEff ipC = 3/2 := by
    rw [ipC_inner, ipC_denom]
    norm_num
  have h1 : ratioOf ipC x y = 1 :=
    ratioOf_eq_one (rawRatio_eq_one_of_sq (by rw [ipC_denom]; norm_num)
      (by rw [hsum]; norm_num) (by rw [hsum]; exact hs))
  exact writePixel_eq_sample (Or.inl (by rw [h1]; norm_num))
    (posWarp_id h1 hx hy) d

theorem ipC_black (x y : ℕ)
    (hs : dxOf ipC x ^ 2 + dyOf ipC y ^ 2 < (3/4 : ℝ) ^ 2) (d : List ℕ) :
    writePixel ipC x y d = blackWrite (posOrig ipC x y) ipC.psize d :=
  writePixel_eq_black (ratioOf_neg_of_sq (by rw [ipC_denom]; norm_num)
    (by rw [ipC_inner]; norm_num) (by rw [ipC_inner]; exact hs)) rfl d

theorem ipC_r_11 : rOf ipC 1 1 < innerRadius ipC := by
  have h1 : rOf ipC 1 1 = Real.sqrt (1/2) := by
    rw [rOf, ipC_sq]
    norm_num
  have hs2 : Real.sqrt (1/2) ^ 2 = 1/2 := Real.sq_sqrt (by norm_num)
  have hs0 : 0 ≤ Real.sqrt (1/2) := Real.sqrt_nonneg _
  rw [h1, ipC_inner]
  nlinarith

theorem warp_ipC : warp ipC = some [1, 2, 3, 4, 0, 0, 7, 0, 0] := by
  have hcol0 : colStep ipC 0 ipC.src = some [1, 2, 3, 4, 5, 6, 7, 8, 9] := by
    rw [colStep_rows (by decide) ipC.src]
    have r1 : iterUp (rowFun ipC 0) 1 ipC.src
        = some [1, 2, 3, 4, 5, 6, 7, 8, 9] :=
      iterUp_step_some (iterUp_zero _ _) ((rowFun_write (by decide) _).trans
        (by rw [ipC_id 0 0 (by decide) (by decide)
              (by rw [ipC_sq]; norm_num) _]
            decide))
    have r2 : iterUp (rowFun ipC 0) 2 ipC.src
        = some [1, 2, 3, 4, 5, 6, 7, 8, 9] :=
      iterUp_step_some r1 ((rowFun_write (by decide) _).trans
        (by rw [ipC_id 0 1 (by decide) (by decide)
              (by rw [ipC_sq]; norm_num) _]
            decide))
    exact iterUp_step_some r2 ((rowFun_write (by decide) _).trans
      (by rw [ipC_id 0 2 (by decide) (by decide)
            (by rw [ipC_sq]; norm_num) _]
          decide))
  have hcol1 : colStep ipC 1 [1, 2, 3, 4, 5, 6, 7, 8, 9]
      = some [1, 2, 3, 4, 0, 6, 7, 0, 9] := by
    rw [colStep_rows (by decide) _]
    have r1 : iterUp (rowFun ipC 1) 1 [1, 2, 3, 4, 5, 6, 7, 8, 9]
        = some [1, 2, 3, 4, 5, 6, 7, 8, 9] :=
      iterUp_step_some (iterUp_zero _ _) ((rowFun_write (by decide) _).trans
        (by rw [ipC_id 1 0 (by decide) (by decide)
              (by rw [ipC_sq]; norm_num) _]
            decide))
    have r2 : iterUp (rowFun ipC 1) 2 [1, 2, 3, 4, 5, 6, 7, 8, 9]
        = some [1, 2, 3, 4, 0, 6, 7, 8, 9] :=
      iterUp_step_some r1 ((rowFun_write (by decide) _).trans
        (by rw [ipC_black 1 1 (by rw [ipC_sq]; norm_num) _]
            decide))
    exact iterUp_step_some r2 ((rowFun_write (by decide) _).trans
      (by rw [ipC_black 1 2 (by rw [ipC_sq]; norm_num) _]
          decide))
  have hcol2 : colStep ipC 2 [1, 2, 3, 4, 0, 6, 7, 0, 9]
      = some [1, 2, 3, 4, 0, 0, 7, 0, 0] := by
    rw [colStep_rows (by decide) _]
    have r1 : iterUp (rowFun ipC 2) 1 [1, 2, 3, 4, 0, 6, 7, 0, 9]
        = some [1, 2, 3, 4, 0, 6, 7, 0, 9] :=
      iterUp_step_some (iterUp_zero _ _) ((rowFun_write (by decide) _).trans
        (by rw [ipC_id 2 0 (by decide) (by decide)
              (by rw [ipC_sq]; norm_num) _]
            decide))
    have r2 : iterUp (rowFun ipC 2) 2 [1, 2, 3, 4, 0, 6, 7, 0, 9]
        = some [1, 2, 3, 4, 0, 0, 7, 0, 9] :=
      iterUp_step_some r1 ((rowFun_write (by decide) _).trans
        (by rw [ipC_black 2 1 (by rw [ipC_sq]; norm_num) _]
            decide))
    exact iterUp_step_some r2 ((rowFun_write (by decide) _).trans
      (by rw [ipC_black 2 2 (by rw [ipC_sq]; norm_num) _]
          decide))
  have s1 : iterUp (colFun ipC) 1 ipC.src
      = some [1, 2, 3, 4, 5, 6, 7, 8, 9] :=
    iterUp_step_some (iterUp_zero _ _) hcol0
  have s2 : iterUp (colFun ipC) 2 ipC.src
      = some [1, 2, 3, 4, 0, 6, 7, 0, 9] :=
    iterUp_step_some s1 hcol1
  have s3 : iterUp (colFun ipC) 3 ipC.src
      = some [1, 2, 3, 4, 0, 0, 7, 0, 0] :=
    iterUp_step_some s2 hcol2
  rw [warp_eq_iter]
  exact s3

/-! ### Concrete inputs for the validation claim: `ip7a` has one byte
too many, `ip7b` one byte too few, `ip7c` a selection rectangle beyond
the buffer bounds -/

def ip7a : WarpInput := ⟨2, 1, 1, 0, 0, 2, 1, 50, 100, false, [5, 7, 9]⟩

def ip7b : WarpInput := ⟨2, 1, 1, 0, 0, 2, 1, 50, 100, false, [5]⟩

def ip7c : WarpInput := ⟨2, 1, 1, 0, 0, 5, 5, 50, 100, false, [5, 7]⟩

theorem ip7a_id (x y : ℕ) (hx : x < ip7a.width) (hy : y < ip7a.height)
    (hs : (1/2 : ℝ) ^ 2 ≤ dxOf ip7a x ^ 2 + dyOf ip7a y ^ 2) (d : List ℕ) :
    writePixel ip7a x y d =
      sampleWrite ip7a.src (posOrig ip7a x y) (posOrig ip7a x y)
        ip7a.psize d := by
  have hi : innerRadius ip7a = 1/4 := by
    rw [innerRadius, maxRadius]
    norm_num [ip7a]
  have ho : outerRadius ip7a = 1/2 := by
    rw [outerRadius, maxRadius]
    norm_num [ip7a]
  have hd : denomEff ip7a = 1/4 := by
    rw [denomEff, ho, hi]
    norm_num
  have hsum : innerRadius ip7a + denomEff ip7a = 1/2 := by
    rw [hi, hd]
    norm_num
  have h1 : ratioOf ip7a x y = 1 :=
    ratioOf_eq_one (rawRatio_eq_one_of_sq (by rw [hd]; norm_num)
      (by rw [hsum]; norm_num) (by rw [hsum]; exact hs))
  exact writePixel_eq_sample (Or.inl (by rw [h1]; norm_num))
    (posWarp_id h1 hx hy) d

theorem warp_ip7a : warp ip7a = some [5, 7, 9] := by
  have hcol0 : colStep ip7a 0 ip7a.src = some [5, 7, 9] := by
    rw [colStep_rows (by decide) ip7a.src]
    exact iterUp_step_some (iterUp_zero _ _)
      ((rowFun_write (by decide) _).trans
        (by rw [ip7a_id 0 0 (by decide) (by decide)
              (by rw [dxOf, dyOf, xCenter, yCenter]; norm_num [ip7a]) _]
            decide))
  have hcol1 : colStep ip7a 1 [5, 7, 9] = some [5, 7, 9] := by
    rw [colStep_rows (by decide) _]
    exact iterUp_step_some (iterUp_zero _ _)
      ((rowFun_write (by decide) _).trans
        (by rw [ip7a_id 1 0 (by decide) (by decide)
              (by rw [dxOf, dyOf, xCenter, yCenter]; norm_num [ip7a]) _]
            decide))
  have s1 : iterUp (colFun ip7a) 1 ip7a.src = some [5, 7, 9] :=
    iterUp_step_some (iterUp_zero _ _) hcol0
  have s2 : iterUp (colFun ip7a) 2 ip7a.src = some [5, 7, 9] :=
    iterUp_step_some s1 hcol1
  rw [warp_eq_iter]
  exact s2

theorem ip7b_id (x y : ℕ) (hx : x < ip7b.width) (hy : y < ip7b.height)
    (hs : (1/2 : ℝ) ^ 2 ≤ dxOf ip7b x ^ 2 + dyOf ip7b y ^ 2) (d : List ℕ) :
    writePixel ip7b x y d =
      sampleWrite ip7b.src (posOrig ip7b x y) (posOrig ip7b x y)
        ip7b.psize d := by
  have hi : innerRadius ip7b = 1/4 := by
    rw [innerRadius, maxRadius]
    norm_num [ip7b]
  have ho : outerRadius ip7b = 1/2 := by
    rw [outerRadius, maxRadius]
    norm_num [ip7b]
  have hd : denomEff ip7b = 1/4 := by
    rw [denomEff, ho, hi]
    norm_num
  have hsum : innerRadius ip7b + denomEff ip7b = 1/2 := by
    rw [hi, hd]
    norm_num
  have h1 : ratioOf ip7b x y = 1 :=
    ratioOf_eq_one (rawRatio_eq_one_of_sq (by rw [hd]; norm_num)
      (by rw [hsum]; norm_num) (by rw [hsum]; exact hs))
  exact writePixel_eq_sample (Or.inl (by rw [h1]; norm_num))
    (posWarp_id h1 hx hy) d

theorem warp_ip7b_first_col : iterUp (colFun ip7b) 1 ip7b.src
    = some [5] := by
  have hcol0 : colStep ip7b 0 ip7b.src = some [5] := by
    rw [colStep_rows (by decide) ip7b.src]
    exact iterUp_step_some (iterUp_zero _ _)
      ((rowFun_write (by decide) _).trans
        (by rw [ip7b_id 0 0 (by decide) (by decide)
              (by rw [dxOf, dyOf, xCenter, yCenter]; norm_num [ip7b]) _]
            decide))
  exact iterUp_step_some (iterUp_zero _ _) hcol0

theorem warp_ip7b : warp ip7b = none := by
  have hcol1 : colStep ip7b 1 [5] = none := by
    rw [colStep_rows (by decide) _]
    exact iterUp_step_some (iterUp_zero _ _)
      ((rowFun_write (by decide) _).trans
        (by rw [ip7b_id 1 0 (by decide) (by decide)
              (by rw [dxOf, dyOf, xCenter, yCenter]; norm_num [ip7b]) _]
            decide))
  rw [warp_eq_iter]
  exact iterUp_step_some warp_ip7b_first_col hcol1

theorem ip7c_id (x y : ℕ) (hx : x < ip7c.width) (hy : y < ip7c.height)
    (hs : (5/2 : ℝ) ^ 2 ≤ dxOf ip7c x ^ 2 + dyOf ip7c y ^ 2) (d : List ℕ) :
    writePixel ip7c x y d =
      sampleWrite ip7c.src (posOrig ip7c x y) (posOrig ip7c x y)
        ip7c.psize d := by
  have hi : innerRadius ip7c = 5/4 := by
    rw [innerRadius, maxRadius]
    norm_num [ip7c]
  have ho : outerRadius ip7c = 5/2 := by
    rw [outerRadius, maxRadius]
    norm_num [ip7c]
  have hd : denomEff ip7c = 5/4 := by
    rw [denomEff, ho, hi]
    norm_num
  have hsum : innerRadius ip7c + denomEff ip7c = 5/2 := by
    rw [hi, hd]
    norm_num
  have h1 : ratioOf ip7c x y = 1 :=
    ratioOf_eq_one (rawRatio_eq_one_of_sq (by rw [hd]; norm_num)
      (by rw [hsum]; norm_num) (by rw [hsum]; exact hs))
  exact writePixel_eq_sample (Or.inl (by rw [h1]; norm_num))
    (posWarp_id h1 hx hy) d

theorem warp_ip7c : warp ip7c = some [5, 7] := by
  have hcol0 : colStep ip7c 0 ip7c.src = some [5, 7] := by
    rw [colStep_rows (by decide) ip7c.src]
    exact iterUp_step_some (iterUp_zero _ _)
      ((rowFun_write (by decide) _).trans
        (by rw [ip7c_id 0 0 (by decide) (by decide)
              (by rw [dxOf, dyOf, xCenter, yCenter]; norm_num [ip7c]) _]
            decide))
  have hcol1 : colStep ip7c 1 [5, 7] = some [5, 7] := by
    rw [colStep_rows (by decide) _]
    exact iterUp_step_some (iterUp_zero _ _)
      ((rowFun_write (by decide) _).trans
        (by rw [ip7c_id 1 0 (by decide) (by decide)
              (by rw [dxOf, dyOf, xCenter, yCenter]; norm_num [ip7c]) _]
            decide))
  have s1 : iterUp (colFun ip7c) 1 ip7c.src = some [5, 7] :=
    iterUp_step_some (iterUp_zero _ _) hcol0
  have s2 : iterUp (colFun ip7c) 2 ip7c.src = some [5, 7] :=
    iterUp_step_some s1 hcol1
  rw [warp_eq_iter]
  exact s2

/-- C7 as stated is false: `ip7a` is malformed (its buffer holds 3 bytes
while `W*H*C = 2`), yet the warp performs its computation and returns a
buffer — no InvalidInput error exists in the code and no validation
happens before the loops. -/
theorem C7_counterexample :
    ¬ ip7a.src.length = ip7a.width * ip7a.height * ip7a.psize ∧
      warp ip7a = some [5, 7, 9] := ⟨by decide, warp_ip7a⟩

/-- C7 (amended): the code performs no input validation at all. A buffer
longer than `W*H*C` is processed to completion and an (over-long) output
buffer is returned; a selection rectangle beyond the buffer bounds is
silently clipped by the loop bounds and a full buffer is returned; a
buffer shorter than `W*H*C` makes the computation start (the first
column is processed successfully) and later abort with an uncaught
`IndexError` (modelled as `none`) — never with an upfront InvalidInput
report. -/
theorem C7_no_validation_exists :
    (¬ ip7a.src.length = ip7a.width * ip7a.height * ip7a.psize ∧
      warp ip7a = some [5, 7, 9]) ∧
    ((ip7c.x2 : ℤ) > ip7c.width ∧ (ip7c.y2 : ℤ) > ip7c.height ∧
      warp ip7c = some [5, 7]) ∧
    (¬ ip7b.src.length = ip7b.width * ip7b.height * ip7b.psize ∧
      iterUp (colFun ip7b) 1 ip7b.src = some [5] ∧ warp ip7b = none) :=
  ⟨⟨by decide, warp_ip7a⟩, ⟨by decide, by decide, warp_ip7c⟩,
    ⟨by decide, warp_ip7b_first_col, warp_ip7b⟩⟩

/-! ### Concrete input `ip6`: the spec scenario — 4 by 4 RGB buffer of
constant `(10,20,30)`, full selection, radii 50 / 100, `inside = false` -/

def src48 : List ℕ :=
  [10, 20, 30, 10, 20, 30, 10, 20, 30, 10, 20, 30,
   10, 20, 30, 10, 20, 30, 10, 20, 30, 10, 20, 30,
   10, 20, 30, 10, 20, 30, 10, 20, 30, 10, 20, 30,
   10, 20, 30, 10, 20, 30, 10, 20, 30, 10, 20, 30]

/-- Expected output for `ip6`: only the bytes of pixel `(2,2)` (flat
positions 30, 31, 32) are zeroed. -/
def out48 : List ℕ :=
  [10, 20, 30, 10, 20, 30, 10, 20, 30, 10, 20, 30,
   10, 20, 30, 10, 20, 30, 10, 20, 30, 10, 20, 30,
   10, 20, 30, 10, 20, 30, 0, 0, 0, 10, 20, 30,
   10, 20, 30, 10, 20, 30, 10, 20, 30, 10, 20, 30]

def ip6 : WarpInput := ⟨4, 4, 3, 0, 0, 4, 4, 50, 100, false, src48⟩

theorem ip6_inner : innerRadius ip6 = 1 := by
  rw [innerRadius, maxRadius]
  norm_num [ip6]

theorem ip6_outer : outerRadius ip6 = 2 := by
  rw [outerRadius, maxRadius]
  norm_num [ip6]

theorem ip6_denom : denomEff ip6 = 1 := by
  rw [denomEff, ip6_outer, ip6_inner]
  norm_num

theorem ip6_sq (x y : ℕ) : dxOf ip6 x ^ 2 + dyOf ip6 y ^ 2 =
    ((x : ℝ) - 2) ^ 2 + ((y : ℝ) - 2) ^ 2 := by
  rw [dxOf, dyOf, xCenter, yCenter]
  norm_num [ip6]

theorem ip6_id (x y : ℕ) (hx : x < ip6.width) (hy : y < ip6.height)
    (hs : (2 : ℝ) ^ 2 ≤ dxOf ip6 x ^ 2 + dyOf ip6 y ^ 2) (d : List ℕ) :
    writePixel ip6 x y d =
      sampleWrite ip6.src (posOrig ip6 x y) (posOrig ip6 x y)
        ip6.psize d := by
  have hsum : innerRadius ip6 + denomEff ip6 = 2 := by
    rw [ip6_inner, ip6_denom]
    norm_num
  have h1 : ratioOf ip6 x y = 1 :=
    ratioOf_eq_one (rawRatio_eq_one_of_sq (by rw [ip6_denom]; norm_num)
      (by rw [hsum]; norm_num) (by rw [hsum]; exact hs))
  exact writePixel_eq_sample (Or.inl (by rw [h1]; norm_num))
    (posWarp_id h1 hx hy) d

theorem ip6_axis (x y : ℕ)
    (hs : dxOf ip6 x ^ 2 + dyOf ip6 y ^ 2 = 1) (d : List ℕ) :
    writePixel ip6 x y d =
      sampleWrite ip6.src ((2 * (ip6.width : ℤ) + 2) * (ip6.psize : ℤ))
        (posOrig ip6 x y) ip6.psize d := by
  have h0 : ratioOf ip6 x y = 0 :=
    ratioOf_zero_of_sq (by rw [ip6_inner]; norm_num)
      (by rw [ip6_inner, hs]; norm_num)
  have hxc : xCenter ip6 = 2 := by
    rw [xCenter]
    norm_num [ip6]
  have hyc : yCenter ip6 = 2 := by
    rw [yCenter]
    norm_num [ip6]
  have hxw : xWarp ip6 x y = 2 := by
    refine xWarp_eq_of_bounds ?_ ?_ ?_ ?_ <;>
      rw [h0, mul_zero, zero_add, hxc] <;> push_cast <;> norm_num [ip6]
  have hyw : yWarp ip6 x y = 2 := by
    refine yWarp_eq_of_bounds ?_ ?_ ?_ ?_ <;>
      rw [h0, mul_zero, zero_add, hyc] <;> push_cast <;> norm_num [ip6]
  exact writePixel_eq_sample (Or.inl (by rw [h0]))
    (posWarp_eq_of hxw hyw) d

theorem ip6_diag_bound {r : ℝ} (hlo : 1/2 < r) (hhi : r ≤ 1) {a : ℤ}
    (ha : a = 1 ∨ a = 3) :
    0 ≤ ((a : ℝ) - 2) * r + 2 ∧ ((a : ℝ) - 2) * r + 2 < 4 ∧
      (a : ℝ) ≤ ((a : ℝ) - 2) * r + 2 + 1/2 ∧
      ((a : ℝ) - 2) * r + 2 + 1/2 < (a : ℝ) + 1 := by
  rcases ha with h | h <;> subst h <;> push_cast <;>
    exact ⟨by linarith, by linarith, by linarith, by linarith⟩

theorem ip6_diag (x y : ℕ) {a b : ℤ}
    (hs : dxOf ip6 x ^ 2 + dyOf ip6 y ^ 2 = 2)
    (hdx : dxOf ip6 x = (a : ℝ) - 2) (ha : a = 1 ∨ a = 3)
    (hdy : dyOf ip6 y = (b : ℝ) - 2) (hb : b = 1 ∨ b = 3) (d : List ℕ) :
    writePixel ip6 x y d =
      sampleWrite ip6.src ((b * (ip6.width : ℤ) + a) * (ip6.psize : ℤ))
        (posOrig ip6 x y) ip6.psize d := by
  have hs0 : 0 ≤ Real.sqrt 2 := Real.sqrt_nonneg _
  have hs2 : Real.sqrt 2 ^ 2 = 2 := Real.sq_sqrt (by norm_num)
  have hsl : 7/5 < Real.sqrt 2 := by nlinarith
  have hsu : Real.sqrt 2 < 3/2 := by nlinarith
  have hr : rOf ip6 x y = Real.sqrt 2 := by
    rw [rOf, hs]
  have hraw : rawRatio ip6 x y = Real.sqrt 2 - 1 := by
    rw [rawRatio, hr, ip6_inner, ip6_denom, div_one]
    exact min_eq_right (by nlinarith)
  have hpos : 0 < rawRatio ip6 x y := by
    rw [hraw]
    linarith
  have hρlo : 1/2 < ratioOf ip6 x y := by
    apply ratioOf_gt_of hpos (by norm_num)
    rw [hraw]
    nlinarith
  have hρhi : ratioOf ip6 x y ≤ 1 := (ratioOf_of_pos hpos).2.2
  have hxc : xCenter ip6 = 2 := by
    rw [xCenter]
    norm_num [ip6]
  have hyc : yCenter ip6 = 2 := by
    rw [yCenter]
    norm_num [ip6]
  have hwr : ((ip6.width : ℕ) : ℝ) = 4 := by norm_num [ip6]
  have hhr : ((ip6.height : ℕ) : ℝ) = 4 := by norm_num [ip6]
  have hxw : xWarp ip6 x y = a := by
    obtain ⟨b1, b2, b3, b4⟩ := ip6_diag_bound hρlo hρhi ha
    refine xWarp_eq_of_bounds ?_ ?_ ?_ ?_ <;> rw [hdx, hxc]
    · exact b1
    · rw [hwr]; exact b2
    · exact b3
    · exact b4
  have hyw : yWarp ip6 x y = b := by
    obtain ⟨b1, b2, b3, b4⟩ := ip6_diag_bound hρlo hρhi hb
    refine yWarp_eq_of_bounds ?_ ?_ ?_ ?_ <;> rw [hdy, hyc]
    · exact b1
    · rw [hhr]; exact b2
    · exact b3
    · exact b4
  exact writePixel_eq_sample (Or.inl (by linarith))
    (posWarp_eq_of hxw hyw) d

theorem ip6_center (d : List ℕ) :
    writePixel ip6 2 2 d = blackWrite (posOrig ip6 2 2) ip6.psize d := by
  refine writePixel_eq_black (ratioOf_neg_of_sq (by rw [ip6_denom]; norm_num)
    (by rw [ip6_inner]; norm_num) ?_) rfl d
  rw [ip6_inner, ip6_sq]
  norm_num

theorem warp_ip6 : warp ip6 = some out48 := by
  have hdx1 : dxOf ip6 1 = ((1 : ℤ) : ℝ) - 2 := by
    rw [dxOf, xCenter]
    push_cast
    norm_num [ip6]
  have hdx3 : dxOf ip6 3 = ((3 : ℤ) : ℝ) - 2 := by
    rw [dxOf, xCenter]
    push_cast
    norm_num [ip6]
  have hdy1 : dyOf ip6 1 = ((1 : ℤ) : ℝ) - 2 := by
    rw [dyOf, yCenter]
    push_cast
    norm_num [ip6]
  have hdy3 : dyOf ip6 3 = ((3 : ℤ) : ℝ) - 2 := by
    rw [dyOf, yCenter]
    push_cast
    norm_num [ip6]
  have hcol0 : colStep ip6 0 src48 = some src48 := by
    rw [colStep_rows (by decide) src48]
    have r1 : iterUp (rowFun ip6 0) 1 src48 = some src48 :=
      iterUp_step_some (iterUp_zero _ _) ((rowFun_write (by decide) _).trans
        (by rw [ip6_id 0 0 (by decide) (by decide)
              (by rw [ip6_sq]; norm_num) _]
            decide))
    have r2 : iterUp (rowFun ip6 0) 2 src48 = some src48 :=
      iterUp_step_some r1 ((rowFun_write (by decide) _).trans
        (by rw [ip6_id 0 1 (by decide) (by decide)
              (by rw [ip6_sq]; norm_num) _]
            decide))
    have r3 : iterUp (rowFun ip6 0) 3 src48 = some src48 :=
      iterUp_step_some r2 ((rowFun_write (by decide) _).trans
        (by rw [ip6_id 0 2 (by decide) (by decide)
              (by rw [ip6_sq]; norm_num) _]
            decide))
    exact iterUp_step_some r3 ((rowFun_write (by decide) _).trans
      (by rw [ip6_id 0 3 (by decide) (by decide)
            (by rw [ip6_sq]; norm_num) _]
          decide))
  have hcol1 : colStep ip6 1 src48 = some src48 := by
    rw [colStep_rows (by decide) src48]
    have r1 : iterUp (rowFun ip6 1) 1 src48 = some src48 :=
      iterUp_step_some (iterUp_zero _ _) ((rowFun_write (by decide) _).trans
        (by rw [ip6_id 1 0 (by decide) (by decide)
              (by rw [ip6_sq]; norm_num) _]
            decide))
    have r2 : iterUp (rowFun ip6 1) 2 src48 = some src48 :=
      iterUp_step_some r1 ((rowFun_write (by decide) _).trans
        (by rw [ip6_diag 1 1 (by rw [ip6_sq]; norm_num) hdx1 (Or.inl rfl)
              hdy1 (Or.inl rfl) _]
            decide))
    have r3 : iterUp (rowFun ip6 1) 3 src48 = some src48 :=
      iterUp_step_some r2 ((rowFun_write (by decide) _).trans
        (by rw [ip6_axis 1 2 (by rw [ip6_sq]; norm_num) _]
            decide))
    exact iterUp_step_some r3 ((rowFun_write (by decide) _).trans
      (by rw [ip6_diag 1 3 (by rw [ip6_sq]; norm_num) hdx1 (Or.inl rfl)
            hdy3 (Or.inr rfl) _]
          decide))
  have hcol2 : colStep ip6 2 src48 = some out48 := by
    rw [colStep_rows (by decide) src48]
    have r1 : iterUp (rowFun ip6 2) 1 src48 = some src48 :=
      iterUp_step_some (iterUp_zero _ _) ((rowFun_write (by decide) _).trans
        (by rw [ip6_id 2 0 (by decide) (by decide)
              (by rw [ip6_sq]; norm_num) _]
            decide))
    have r2 : iterUp (rowFun ip6 2) 2 src48 = some src48 :=
      iterUp_step_some r1 ((rowFun_write (by decide) _).trans
        (by rw [ip6_axis 2 1 (by rw [ip6_sq]; norm_num) _]
            decide))
    have r3 : iterUp (rowFun ip6 2) 3 src48 = some out48 :=
      iterUp_step_some r2 ((rowFun_write (by decide) _).trans
        (by rw [ip6_center _]
            decide))
    exact iterUp_step_some r3 ((rowFun_write (by decide) _).trans
      (by rw [ip6_axis 2 3 (by rw [ip6_sq]; norm_num) _]
          decide))
  have hcol3 : colStep ip6 3 out48 = some out48 := by
    rw [colStep_rows (by decide) out48]
    have r1 : iterUp (rowFun ip6 3) 1 out48 = some out48 :=
      iterUp_step_some (iterUp_zero _ _) ((rowFun_write (by decide) _).trans
        (by rw [ip6_id 3 0 (by decide) (by decide)
              (by rw [ip6_sq]; norm_num) _]
            decide))
    have r2 : iterUp (rowFun ip6 3) 2 out48 = some out48 :=
      iterUp_step_some r1 ((rowFun_write (by decide) _).trans
        (by rw [ip6_diag 3 1 (by rw [ip6_sq]; norm_num) hdx3 (Or.inr rfl)
              hdy1 (Or.inl rfl) _]
            decide))
    have r3 : iterUp (rowFun ip6 3) 3 out48 = some out48 :=
      iterUp_step_some r2 ((rowFun_write (by decide) _).trans
        (by rw [ip6_axis 3 2 (by rw [ip6_sq]; norm_num) _]
            decide))
    exact iterUp_step_some r3 ((rowFun_write (by decide) _).trans
      (by rw [ip6_diag 3 3 (by rw [ip6_sq]; norm_num) hdx3 (Or.inr rfl)
            hdy3 (Or.inr rfl) _]
          decide))
  have s1 : iterUp (colFun ip6) 1 ip6.src = some src48 :=
    iterUp_step_some (iterUp_zero _ _) hcol0
  have s2 : iterUp (colFun ip6) 2 ip6.src = some src48 :=
    iterUp_step_some s1 hcol1
  have s3 : iterUp (colFun ip6) 3 ip6.src = some out48 :=
    iterUp_step_some s2 hcol2
  have s4 : iterUp (colFun ip6) 4 ip6.src = some out48 :=
    iterUp_step_some s3 hcol3
  rw [warp_eq_iter]
  exact s4

/-- C6 is refuted: on the spec scenario (4 by 4 RGB constant
`(10,20,30)`, full selection, radii 50 / 100, `inside = false`) the warp
completes, but the center 2 by 2 block is not black — pixel `(1,1)` of
that block keeps bytes `(10,20,30)`; only the centroid pixel `(2,2)` is
strictly inside the inner radius. -/
theorem C6_counterexample :
    warp ip6 = some out48 ∧
      out48[posOrig ip6 1 1 + 0]? = some 10 ∧
      ¬ out48[posOrig ip6 1 1 + 0]? = some 0 :=
  ⟨warp_ip6, by decide, by decide⟩

/-- C6 (amended): on the spec scenario the computation completes without
error and yields a buffer of the same dimensions in which exactly one
pixel — the centroid pixel `(2,2)`, the only one strictly inside the
inner radius — is `(0,0,0)`, and every other pixel keeps the source
value `(10,20,30)`. -/
theorem C6_scenario_amended :
    warp ip6 = some out48 ∧ out48.length = src48.length ∧
      (∀ i, i < 3 → out48[posOrig ip6 2 2 + i]? = some 0) ∧
      (∀ x, x < 4 → ∀ y, y < 4 → ∀ i, i < 3 →
        out48[posOrig ip6 x y + i]? =
          if x = 2 ∧ y = 2 then some 0
          else src48[posOrig ip6 x y + i]?) :=
  ⟨warp_ip6, by decide, by decide, by decide⟩

/-! ### Witnesses -/

theorem C2_witness :
    warp ipC = some [1, 2, 3, 4, 0, 0, 7, 0, 0] ∧ ratioOf ipC 1 1 < 0 ∧
      ([1, 2, 3, 4, 0, 0, 7, 0, 0] : List ℕ)[posOrig ipC 1 1 + 0]?
        = some 0 := by
  have hio : innerRadius ipC ≤ outerRadius ipC := by
    rw [ipC_inner, ipC_outer]
    norm_num
  have h := @C2_inner_disk_policy ipC [1, 2, 3, 4, 0, 0, 7, 0, 0] 1 1
    warp_ipC (by decide) (by decide) (by decide) (by decide) (by decide)
    hio ipC_r_11
  exact ⟨warp_ipC, h.1, h.2.1 rfl 0 (by decide)⟩

theorem C3_witness :
    warp ipA = some [5, 7] ∧
      ([5, 7] : List ℕ)[posOrig ipA 1 0 + 0]?
        = ipA.src[posOrig ipA 1 0 + 0]? :=
  ⟨warp_ipA, C3_outside_roi_identity warp_ipA (by decide) (by decide)
    (by decide) (by decide)⟩

theorem C5_witness :
    warp ipA = some [5, 7] ∧ ratioOf ipA 0 0 = 1 ∧
      ([5, 7] : List ℕ)[posOrig ipA 0 0 + 0]?
        = ipA.src[posOrig ipA 0 0 + 0]? := by
  have ho : outerRadius ipA = 1/2 := by
    rw [outerRadius, maxRadius]
    norm_num [ipA]
  have hio : innerRadius ipA < outerRadius ipA := by
    rw [ipA_inner, ho]
    norm_num
  have hr : outerRadius ipA ≤ rOf ipA 0 0 := by
    have h1 : rOf ipA 0 0 = Real.sqrt (1/2) := by
      rw [rOf, dxOf, dyOf, xCenter, yCenter]
      norm_num [ipA]
    have hs2 : Real.sqrt (1/2) ^ 2 = 1/2 := Real.sq_sqrt (by norm_num)
    have hs0 : 0 ≤ Real.sqrt (1/2) := Real.sqrt_nonneg _
    rw [ho, h1]
    nlinarith
  have h := @C5_outer_radius_identity ipA [5, 7] 0 0 0 warp_ipA
    (by decide) (by decide) (by decide) (by decide) hio hr
  exact ⟨warp_ipA, h.2.1, h.2.2⟩

theorem C8_witness : warp ipA = warp ipA :=
  C8_warp_deterministic ipA ipA rfl

theorem C9_witness :
    0 < rawRatio ipA 0 0 ∧ 0 < ratioOf ipA 0 0 ∧ ratioOf ipA 0 0 ≤ 1 := by
  have hraw : rawRatio ipA 0 0 = 1 :=
    rawRatio_eq_one_of_sq (by rw [ipA_denom]; norm_num)
      (by rw [ipA_inner, ipA_denom]; norm_num)
      (by rw [ipA_inner, ipA_denom, dxOf, dyOf, xCenter, yCenter]
          norm_num [ipA])
  have h := C9_shaping_sqrt_branch ipA 0 0 (by rw [hraw]; norm_num)
  exact ⟨by rw [hraw]; norm_num, h.2.2.2.2.1, h.2.2.2.2.2⟩

theorem C10_witness :
    denomEff ipB < 0 ∧ ratioOf ipB 0 0 < 0 ∧ destByte ipB 0 0 0 = some 0 ∧
      0 < ratioOf ipB 1 1 ∧
      destByte ipB 1 1 0 = pyGet ipB.src (posWarp ipB 1 1 + (0 : ℤ)) := by
  have h := @C10_negative_denom_swaps_roles ipB (by decide) (by decide)
    (by norm_num [ipB])
  have hr00 : innerRadius ipB < rOf ipB 0 0 := by
    have h1 : rOf ipB 0 0 = Real.sqrt (9/2) := by
      rw [rOf, ipB_sq]
      norm_num
    rw [h1, ipB_inner]
    exact (Real.lt_sqrt (by norm_num)).mpr (by norm_num)
  have hout := (h.2.2 0 0).1 hr00
  have hin := (h.2.2 1 1).2 (ipB_r_lt_inner (by rw [ipB_sq]; norm_num))
  exact ⟨h.2.1, hout.1, hout.2 rfl 0, hin.1, hin.2 0⟩
